import Mathlib

/-!
Verification of the chess rules engine and negamax search in
`console_chess.py`.  The Python source is shallowly embedded: the board is an
8×8 grid of characters (`'.'` for an empty square, `KQRBNP`/`kqrbnp` for
pieces), coordinates are integers (row 0 = rank 8, column 0 = file a), and
every stateful method becomes a pure function from `GameState` to
`GameState`.  Python's list indexing is guarded by `in_bounds` checks in the
source; the embedding totalises out-of-range reads to `'.'` and makes
out-of-range writes no-ops, which agrees with the source on every guarded
access.
-/

namespace ConsoleChess

/-- The board: an 8×8 grid of characters, row-major as in the source. -/
abbrev Board := Fin 8 → Fin 8 → Char

/-- The four castling-rights booleans, Python's
`{'K': _, 'Q': _, 'k': _, 'q': _}` dictionary (insertion order K, Q, k, q). -/
structure Castle where
  K : Bool
  Q : Bool
  k : Bool
  q : Bool
deriving DecidableEq, Repr

/-- A move `(from_r, from_c, to_r, to_c, promotion)`. -/
structure Move where
  fr : Int
  fc : Int
  tr : Int
  tc : Int
  prom : Option Char
deriving DecidableEq, Repr

/-- One entry of `move_stack`, the tuple pushed by `make_move`:
`(fr, fc, tr, tc, piece, target, castling.copy(), en_passant,
halfmove_clock, fullmove_number)`. -/
structure StackEntry where
  fr : Int
  fc : Int
  tr : Int
  tc : Int
  piece : Char
  target : Char
  castling : Castle
  en_passant : Option String
  halfmove_clock : Int
  fullmove_number : Int
deriving DecidableEq, Repr

/-- The `GameState` class.  `move_stack` keeps the most recent entry at the
head (Python appends to the tail and pops from the tail; a cons-list with
push/pop at the head is the same stack discipline). -/
structure GameState where
  board : Board
  to_move : Char
  castling : Castle
  en_passant : Option String
  halfmove_clock : Int
  fullmove_number : Int
  move_stack : List StackEntry

instance : DecidableEq Board := inferInstance

instance : DecidableEq GameState := fun a b =>
  decidable_of_iff
    (a.board = b.board ∧ a.to_move = b.to_move ∧ a.castling = b.castling ∧
      a.en_passant = b.en_passant ∧ a.halfmove_clock = b.halfmove_clock ∧
      a.fullmove_number = b.fullmove_number ∧ a.move_stack = b.move_stack)
    (by cases a; cases b; simp [GameState.mk.injEq])

/-- `in_bounds`: `0 <= r < 8 and 0 <= c < 8`. -/
def in_bounds (r c : Int) : Prop := 0 ≤ r ∧ r < 8 ∧ 0 ≤ c ∧ c < 8

instance (r c : Int) : Decidable (in_bounds r c) := by
  unfold in_bounds; infer_instance

/-- Guarded board read, `self.board[r][c]` (all reads in the source are
either guarded by `in_bounds` or known in range). -/
def getc (b : Board) (r c : Int) : Char :=
  if h : in_bounds r c then
    b ⟨r.toNat, by obtain ⟨h1, h2, _, _⟩ := h; omega⟩
      ⟨c.toNat, by obtain ⟨_, _, h3, h4⟩ := h; omega⟩
  else '.'

/-- Board write, `self.board[r][c] = ch`. -/
def setc (b : Board) (r c : Int) (ch : Char) : Board :=
  fun i j => if (i.val : Int) = r ∧ (j.val : Int) = c then ch else b i j

/-- `piece_color`: `None` for `'.'`, `'w'` for uppercase, `'b'` otherwise. -/
def piece_color (p : Char) : Option Char :=
  if p = '.' then none else if p.isUpper then some 'w' else some 'b'

/-- `enemy`. -/
def enemy (side : Char) : Char := if side = 'w' then 'b' else 'w'

/-- `PIECE_VALUES.get(ch, 0)`. -/
def PIECE_VALUES (ch : Char) : Int :=
  if ch = 'K' then 0
  else if ch = 'Q' then 900
  else if ch = 'R' then 500
  else if ch = 'B' then 330
  else if ch = 'N' then 320
  else if ch = 'P' then 100
  else 0

/-- `algebraic_to_coords`: `(8 - int(s[1]), ord(s[0]) - ord('a'))`. -/
def algebraic_to_coords (s : String) : Int × Int :=
  let l := s.data
  (8 - (((l.getD 1 '0').toNat : Int) - 48), ((l.getD 0 'a').toNat : Int) - 97)

/-- `coords_to_algebraic`: `chr(ord('a') + c) + str(8 - r)`. -/
def coords_to_algebraic (r c : Int) : String :=
  String.mk [Char.ofNat (97 + c).toNat] ++ toString (8 - r)

/-- The row-major square enumeration `for r in range(8): for c in range(8)`. -/
def allRC : List (Int × Int) :=
  (List.range 8).flatMap (fun r => (List.range 8).map (fun c => ((r : Int), (c : Int))))

/-- One step bound for ray walks: a ray stays on the board for at most 8
consecutive squares, so fuel 8 suffices for the `while in_bounds` loops. -/
def rayAttack (b : Board) (by_side : Char) (k1 k2 : Char) :
    Nat → Int → Int → Int → Int → Bool
  | 0, _, _, _, _ => false
  | fuel + 1, r, c, dr, dc =>
    if in_bounds r c then
      let ch := getc b r c
      if ch ≠ '.' then
        decide (piece_color ch = some by_side ∧ (ch.toUpper = k1 ∨ ch.toUpper = k2))
      else rayAttack b by_side k1 k2 fuel (r + dr) (c + dc) dr dc
    else false

/-- `is_attacked(r, c, by_side)`. -/
def is_attacked (b : Board) (r c : Int) (by_side : Char) : Bool :=
  -- pawn attacks
  (let dirs : List (Int × Int) :=
    if by_side = 'w' then [(-1, -1), (-1, 1)] else [(1, -1), (1, 1)]
   dirs.any (fun d =>
     let rr := r + d.1; let cc := c + d.2
     decide (in_bounds rr cc) &&
       decide ((getc b rr cc).toUpper = 'P' ∧ piece_color (getc b rr cc) = some by_side)))
  ||
  -- knights
  ([((-2 : Int), (-1 : Int)), (-2, 1), (-1, -2), (-1, 2),
    (1, -2), (1, 2), (2, -1), (2, 1)].any (fun d =>
     let rr := r + d.1; let cc := c + d.2
     decide (in_bounds rr cc) &&
       decide ((getc b rr cc).toUpper = 'N' ∧ piece_color (getc b rr cc) = some by_side)))
  ||
  -- bishops/queens on diagonals
  ([((-1 : Int), (-1 : Int)), (-1, 1), (1, -1), (1, 1)].any (fun d =>
     rayAttack b by_side 'B' 'Q' 8 (r + d.1) (c + d.2) d.1 d.2))
  ||
  -- rooks/queens on straights
  ([((-1 : Int), (0 : Int)), (1, 0), (0, -1), (0, 1)].any (fun d =>
     rayAttack b by_side 'R' 'Q' 8 (r + d.1) (c + d.2) d.1 d.2))
  ||
  -- enemy king
  ([((-1 : Int), (-1 : Int)), (-1, 0), (-1, 1), (0, -1), (0, 1),
    (1, -1), (1, 0), (1, 1)].any (fun d =>
     let rr := r + d.1; let cc := c + d.2
     decide (in_bounds rr cc) &&
       decide ((getc b rr cc).toUpper = 'K' ∧ piece_color (getc b rr cc) = some by_side)))

/-- `king_position(side)`: the first square (row-major) holding the side's
king, `None` if there is none. -/
def king_position (b : Board) (side : Char) : Option (Int × Int) :=
  let target := if side = 'w' then 'K' else 'k'
  allRC.find? (fun rc => getc b rc.1 rc.2 = target)

/-- `in_check(side)`: `True` when the king is missing. -/
def in_check (gs : GameState) (side : Char) : Bool :=
  match king_position gs.board side with
  | none => true
  | some kr => is_attacked gs.board kr.1 kr.2 (enemy side)

/-- The board mutation performed by `make_move`: clear the source square,
remove the en-passant victim, relocate the castling rook, place the moving
(or promoted) piece. -/
def apply_board (b : Board) (ep : Option String) (m : Move) : Board :=
  let piece := getc b m.fr m.fc
  let target := getc b m.tr m.tc
  -- move piece: clear the source square
  let b1 := setc b m.fr m.fc '.'
  -- handle en-passant capture (capture pawn behind the ep square)
  let b2 :=
    if piece.toUpper = 'P' ∧ ep.isSome then
      let e := algebraic_to_coords (ep.getD "")
      if m.tr = e.1 ∧ m.tc = e.2 ∧ m.fc ≠ m.tc ∧ target = '.' then
        setc b1 m.fr m.tc '.'
      else b1
    else b1
  -- handle castling rook move / promotion / ordinary placement
  if piece.toUpper = 'K' ∧ (m.tc - m.fc = 2 ∨ m.fc - m.tc = 2) then
    if m.tc > m.fc then
      let ba := setc b2 m.tr m.tc piece
      let bb := setc ba m.tr (m.tc - 1) (getc ba m.tr 7)
      setc bb m.tr 7 '.'
    else
      let ba := setc b2 m.tr m.tc piece
      let bb := setc ba m.tr (m.tc + 1) (getc ba m.tr 0)
      setc bb m.tr 0 '.'
  else
    if m.prom.isSome ∧ piece.toUpper = 'P' ∧ (m.tr = 0 ∨ m.tr = 7) then
      let promoted :=
        if piece.isUpper then (m.prom.getD 'q').toUpper else (m.prom.getD 'q').toLower
      setc b2 m.tr m.tc promoted
    else
      setc b2 m.tr m.tc piece

/-- The castling-rights update of `make_move` (`b3` is the board after the
move, as the source consults it after mutating). -/
def update_castling (cast : Castle) (b3 : Board) (piece : Char) (m : Move) : Castle :=
  let cs1 := if piece = 'K' then { cast with K := false, Q := false } else cast
  let cs2 := if piece = 'k' then { cs1 with k := false, q := false } else cs1
  let cs3 :=
    if ((m.fr = 7 ∧ m.fc = 0) ∨ (m.tr = 7 ∧ m.tc = 0)) ∧ (getc b3 7 0).toUpper ≠ 'R' then
      { cs2 with Q := false } else cs2
  let cs4 :=
    if ((m.fr = 7 ∧ m.fc = 7) ∨ (m.tr = 7 ∧ m.tc = 7)) ∧ (getc b3 7 7).toUpper ≠ 'R' then
      { cs3 with K := false } else cs3
  let cs5 :=
    if ((m.fr = 0 ∧ m.fc = 0) ∨ (m.tr = 0 ∧ m.tc = 0)) ∧ (getc b3 0 0).toUpper ≠ 'R' then
      { cs4 with q := false } else cs4
  if ((m.fr = 0 ∧ m.fc = 7) ∨ (m.tr = 0 ∧ m.tc = 7)) ∧ (getc b3 0 7).toUpper ≠ 'R' then
    { cs5 with k := false } else cs5

/-- The fresh en-passant target set by `make_move`: only after a pawn
double push. -/
def new_en_passant (piece : Char) (m : Move) : Option String :=
  if piece.toUpper = 'P' ∧ (m.tr - m.fr = 2 ∨ m.fr - m.tr = 2) then
    some (coords_to_algebraic (Int.fdiv (m.fr + m.tr) 2) m.fc)
  else none

/-- `make_move` (the `validate` parameter of the source is unused there). -/
def make_move (gs : GameState) (m : Move) : GameState :=
  let piece := getc gs.board m.fr m.fc
  let target := getc gs.board m.tr m.tc
  -- store state to stack for undo
  let stack : List StackEntry :=
    ⟨m.fr, m.fc, m.tr, m.tc, piece, target, gs.castling, gs.en_passant,
     gs.halfmove_clock, gs.fullmove_number⟩ :: gs.move_stack
  -- update halfmove
  let hm : Int :=
    if piece.toUpper = 'P' ∨ target ≠ '.' then 0 else gs.halfmove_clock + 1
  let b3 := apply_board gs.board gs.en_passant m
  -- change side
  let tm := enemy gs.to_move
  let fn := if tm = 'w' then gs.fullmove_number + 1 else gs.fullmove_number
  ⟨b3, tm, update_castling gs.castling b3 piece m, new_en_passant piece m, hm, fn, stack⟩

/-- `undo`: a no-op on an empty stack; otherwise restores the two endpoint
squares and the snapshotted metadata. -/
def undo (gs : GameState) : GameState :=
  match gs.move_stack with
  | [] => gs
  | e :: rest =>
    let b1 := setc gs.board e.fr e.fc e.piece
    let b2 := setc b1 e.tr e.tc e.target
    ⟨b2, enemy gs.to_move, e.castling, e.en_passant,
     e.halfmove_clock, e.fullmove_number, rest⟩

/-- The promotion choices, in the source's order. -/
def promos : List Char := ['q', 'r', 'b', 'n']

/-- `_pawn_moves` (the emitters return the moves they append, in append
order; `generate_moves` concatenates them).  They are only invoked on a
square holding a piece of the side to move, so `piece_color` is `some _`. -/
def pawn_moves (b : Board) (ep : Option String) (r c : Int) : List Move :=
  let p := getc b r c
  let side := (piece_color p).getD 'b'
  let dir : Int := if side = 'w' then -1 else 1
  let start_row : Int := if side = 'w' then 6 else 1
  let fwd :=
    if in_bounds (r + dir) c ∧ getc b (r + dir) c = '.' then
      if (r + dir = 0 ∧ side = 'w') ∨ (r + dir = 7 ∧ side = 'b') then
        promos.map (fun q => ⟨r, c, r + dir, c, some q⟩)
      else
        ⟨r, c, r + dir, c, none⟩ ::
          (if r = start_row ∧ getc b (r + 2 * dir) c = '.' then
            [⟨r, c, r + 2 * dir, c, none⟩] else [])
    else []
  let caps := [(-1 : Int), 1].flatMap (fun dc =>
    let rr := r + dir; let cc := c + dc
    if in_bounds rr cc ∧ getc b rr cc ≠ '.' ∧
        piece_color (getc b rr cc) = some (enemy side) then
      if (rr = 0 ∧ side = 'w') ∨ (rr = 7 ∧ side = 'b') then
        promos.map (fun q => ⟨r, c, rr, cc, some q⟩)
      else [⟨r, c, rr, cc, none⟩]
    else [])
  let epl :=
    match ep with
    | none => []
    | some s =>
      let e := algebraic_to_coords s
      if e.1 = r + dir ∧ (e.2 - c = 1 ∨ c - e.2 = 1) then
        [⟨r, c, e.1, e.2, none⟩]
      else []
  fwd ++ caps ++ epl

/-- `_knight_moves`. -/
def knight_moves (b : Board) (r c : Int) : List Move :=
  let side := (piece_color (getc b r c)).getD 'b'
  [((-2 : Int), (-1 : Int)), (-2, 1), (-1, -2), (-1, 2),
   (1, -2), (1, 2), (2, -1), (2, 1)].flatMap (fun d =>
    let rr := r + d.1; let cc := c + d.2
    if in_bounds rr cc ∧
        (getc b rr cc = '.' ∨ piece_color (getc b rr cc) = some (enemy side)) then
      [⟨r, c, rr, cc, none⟩]
    else [])

/-- The `while` walk of `_sliding_moves` along one direction. -/
def ray_moves (b : Board) (side : Char) (r0 c0 : Int) :
    Nat → Int → Int → Int → Int → List Move
  | 0, _, _, _, _ => []
  | fuel + 1, r, c, dr, dc =>
    if in_bounds r c then
      if getc b r c = '.' then
        ⟨r0, c0, r, c, none⟩ :: ray_moves b side r0 c0 fuel (r + dr) (c + dc) dr dc
      else if piece_color (getc b r c) = some (enemy side) then
        [⟨r0, c0, r, c, none⟩]
      else []
    else []

/-- `_sliding_moves`. -/
def sliding_moves (b : Board) (r c : Int) (directions : List (Int × Int)) : List Move :=
  let side := (piece_color (getc b r c)).getD 'b'
  directions.flatMap (fun d => ray_moves b side r c 8 (r + d.1) (c + d.2) d.1 d.2)

/-- The eight-neighbor part of `_king_moves`. -/
def king_normal_moves (b : Board) (r c : Int) : List Move :=
  let side := (piece_color (getc b r c)).getD 'b'
  [((-1 : Int), (-1 : Int)), (-1, 0), (-1, 1), (0, -1), (0, 1),
   (1, -1), (1, 0), (1, 1)].flatMap (fun d =>
    let rr := r + d.1; let cc := c + d.2
    if in_bounds rr cc ∧
        (getc b rr cc = '.' ∨ piece_color (getc b rr cc) = some (enemy side)) then
      [⟨r, c, rr, cc, none⟩]
    else [])

/-- The white castling candidates of `_king_moves`. -/
def king_castle_w (gs : GameState) (r c : Int) : List Move :=
  let b := gs.board
  let side := (piece_color (getc b r c)).getD 'b'
  if side = 'w' ∧ r = 7 ∧ c = 4 then
    (if gs.castling.K ∧ getc b 7 5 = '.' ∧ getc b 7 6 = '.' ∧
        is_attacked b 7 4 'b' = false ∧ is_attacked b 7 5 'b' = false ∧
        is_attacked b 7 6 'b' = false then
      [(⟨7, 4, 7, 6, none⟩ : Move)] else []) ++
    (if gs.castling.Q ∧ getc b 7 3 = '.' ∧ getc b 7 2 = '.' ∧ getc b 7 1 = '.' ∧
        is_attacked b 7 4 'b' = false ∧ is_attacked b 7 3 'b' = false ∧
        is_attacked b 7 2 'b' = false then
      [(⟨7, 4, 7, 2, none⟩ : Move)] else [])
  else []

/-- The black castling candidates of `_king_moves`. -/
def king_castle_b (gs : GameState) (r c : Int) : List Move :=
  let b := gs.board
  let side := (piece_color (getc b r c)).getD 'b'
  if side = 'b' ∧ r = 0 ∧ c = 4 then
    (if gs.castling.k ∧ getc b 0 5 = '.' ∧ getc b 0 6 = '.' ∧
        is_attacked b 0 4 'w' = false ∧ is_attacked b 0 5 'w' = false ∧
        is_attacked b 0 6 'w' = false then
      [(⟨0, 4, 0, 6, none⟩ : Move)] else []) ++
    (if gs.castling.q ∧ getc b 0 3 = '.' ∧ getc b 0 2 = '.' ∧ getc b 0 1 = '.' ∧
        is_attacked b 0 4 'w' = false ∧ is_attacked b 0 3 'w' = false ∧
        is_attacked b 0 2 'w' = false then
      [(⟨0, 4, 0, 2, none⟩ : Move)] else [])
  else []

/-- `_king_moves`, including the castling candidates (append order as in the
source: eight neighbors, then white castles, then black castles). -/
def king_moves (gs : GameState) (r c : Int) : List Move :=
  king_normal_moves gs.board r c ++ king_castle_w gs r c ++ king_castle_b gs r c

/-- The per-square dispatch of `generate_moves`'s main loop. -/
def square_moves (gs : GameState) (r c : Int) : List Move :=
  let p := getc gs.board r c
  if p = '.' then []
  else if piece_color p ≠ some gs.to_move then []
  else if p.toUpper = 'P' then pawn_moves gs.board gs.en_passant r c
  else if p.toUpper = 'N' then knight_moves gs.board r c
  else if p.toUpper = 'B' then
    sliding_moves gs.board r c [(-1, -1), (-1, 1), (1, -1), (1, 1)]
  else if p.toUpper = 'R' then
    sliding_moves gs.board r c [(-1, 0), (1, 0), (0, -1), (0, 1)]
  else if p.toUpper = 'Q' then
    sliding_moves gs.board r c
      [(-1, -1), (-1, 1), (1, -1), (1, 1), (-1, 0), (1, 0), (0, -1), (0, 1)]
  else if p.toUpper = 'K' then king_moves gs r c
  else []

/-- The pseudo-legal move list accumulated by `generate_moves` before the
check filter. -/
def pseudo_moves (gs : GameState) : List Move :=
  allRC.flatMap (fun rc => square_moves gs rc.1 rc.2)

/-- `generate_moves`: pseudo-legal moves minus those leaving the mover's own
king in check (simulated by cloning and applying the move). -/
def generate_moves (gs : GameState) : List Move :=
  (pseudo_moves gs).filter (fun m => in_check (make_move gs m) gs.to_move = false)

/-- `is_checkmate`. -/
def is_checkmate (gs : GameState) : Bool :=
  if in_check gs gs.to_move = false then false
  else (generate_moves gs).length = 0

/-- `is_stalemate`. -/
def is_stalemate (gs : GameState) : Bool :=
  if in_check gs gs.to_move then false
  else (generate_moves gs).length = 0

/-- The per-square accumulation of `material_score`. -/
def material_step (b : Board) (s : Int) (rc : Int × Int) : Int :=
  let p := getc b rc.1 rc.2
  if p = '.' then s
  else
    let val := PIECE_VALUES p.toUpper
    s + (if p.isUpper then val else -val)

/-- `material_score`: positive means white advantage. -/
def material_score (gs : GameState) : Int :=
  allRC.foldl (material_step gs.board) 0

/-- `evaluate`: material plus 10 × (own legal-move count − opponent
legal-move count), the opponent count taken on a clone with the side to
move flipped. -/
def evaluate (gs : GameState) : Int :=
  let mat := material_score gs
  let moves := (generate_moves gs).length
  let opp_moves := (generate_moves { gs with to_move := enemy gs.to_move }).length
  mat + 10 * ((moves : Int) - (opp_moves : Int))

/-- The move-ordering key of `negamax`: captures first, ranked by victim
value. -/
def mv_key (gs : GameState) (m : Move) : Int :=
  let target := getc gs.board m.tr m.tc
  if target ≠ '.' then 100 + PIECE_VALUES target.toUpper else 0

/-- Stable insertion into a descending-sorted list: the new element goes
after existing elements with a strictly greater or equal key position kept
stable, matching Python's stable `sort(key=mv_key, reverse=True)`. -/
def insertDesc (key : Move → Int) (m : Move) : List Move → List Move
  | [] => [m]
  | x :: xs => if key x > key m ∨ key x = key m then x :: insertDesc key m xs
               else m :: x :: xs

/-- Stable descending sort by `mv_key` (Python's list sort is stable, so the
sorted order is uniquely determined; insertion sort reproduces it). -/
def sortMoves (gs : GameState) : List Move → List Move
  | [] => []
  | x :: xs => insertDesc (mv_key gs) x (sortMoves gs xs)

/-- The candidate loop of `negamax`: track the best (score, move), raise
`alpha`, and stop on `alpha >= beta`.  The recursive search on child
positions is abstracted as `f`. -/
def negamaxLoop (f : GameState → Int → Int → Int × Option Move) (gs : GameState) :
    List Move → Int → Option Move → Int → Int → Int × Option Move
  | [], best, bm, _, _ => (best, bm)
  | m :: rest, best, bm, alpha, beta =>
    let gs2 := make_move gs m
    let val := -(f gs2 (-beta) (-alpha)).1
    let best' := if val > best then val else best
    let bm' := if val > best then some m else bm
    let alpha' := max alpha val
    if alpha' ≥ beta then (best', bm')
    else negamaxLoop f gs rest best' bm' alpha' beta

/-- `negamax(gs, depth, alpha, beta)` (depth first here so the recursion is
structural). -/
def negamax : Nat → GameState → Int → Int → Int × Option Move
  | 0, gs, _, _ => (evaluate gs, none)
  | d + 1, gs, alpha, beta =>
    let moves := generate_moves gs
    if moves = [] then
      if in_check gs gs.to_move then
        (-999999 + (10 - ((d : Int) + 1)), none)
      else (0, none)
    else
      negamaxLoop (fun g a bt => negamax d g a bt) gs (sortMoves gs moves)
        (-(10 ^ 9)) none alpha beta

/-- The loop of `negamax` with the `alpha >= beta` cutoff removed (alpha is
still updated and the narrowed windows are still passed down). -/
def negamaxFullLoop (f : GameState → Int → Int → Int × Option Move) (gs : GameState) :
    List Move → Int → Option Move → Int → Int → Int × Option Move
  | [], best, bm, _, _ => (best, bm)
  | m :: rest, best, bm, alpha, beta =>
    let gs2 := make_move gs m
    let val := -(f gs2 (-beta) (-alpha)).1
    let best' := if val > best then val else best
    let bm' := if val > best then some m else bm
    let alpha' := max alpha val
    negamaxFullLoop f gs rest best' bm' alpha' beta

/-- Exhaustive negamax: identical to `negamax` (same ordered candidate
list) with the `alpha >= beta` cutoff removed. -/
def negamaxFull : Nat → GameState → Int → Int → Int × Option Move
  | 0, gs, _, _ => (evaluate gs, none)
  | d + 1, gs, alpha, beta =>
    let moves := generate_moves gs
    if moves = [] then
      if in_check gs gs.to_move then
        (-999999 + (10 - ((d : Int) + 1)), none)
      else (0, none)
    else
      negamaxFullLoop (fun g a bt => negamaxFull d g a bt) gs (sortMoves gs moves)
        (-(10 ^ 9)) none alpha beta

/-- One rank of the FEN board field, with run-length-coded empty squares. -/
def fen_row (b : Board) (r : Int) : String :=
  let step := fun (st : Nat × String) (c : Int) =>
    let ch := getc b r c
    if ch = '.' then (st.1 + 1, st.2)
    else if st.1 = 0 then (0, st.2.push ch)
    else (0, (st.2 ++ toString st.1).push ch)
  let fin := ((List.range 8).map (fun c => (c : Int))).foldl step (0, "")
  if fin.1 = 0 then fin.2 else fin.2 ++ toString fin.1

/-- `fen()`: the six space-separated fields of the serialized record. -/
def fen (gs : GameState) : String :=
  let board_part :=
    String.intercalate "/" (((List.range 8).map (fun r => (r : Int))).map (fen_row gs.board))
  let castling_part :=
    (if gs.castling.K then "K" else "") ++ (if gs.castling.Q then "Q" else "") ++
    (if gs.castling.k then "k" else "") ++ (if gs.castling.q then "q" else "")
  let castling_part := if castling_part = "" then "-" else castling_part
  let ep := match gs.en_passant with | none => "-" | some s => s
  board_part ++ " " ++ String.mk [gs.to_move] ++ " " ++ castling_part ++ " " ++ ep ++
    " " ++ toString gs.halfmove_clock ++ " " ++ toString gs.fullmove_number

/-- Build a board from eight rows of eight characters (helper for stating
concrete positions; rows given top to bottom as in FEN). -/
def mkBoard (rows : List (List Char)) : Board :=
  fun i j => (rows.getD i.val []).getD j.val '.'

/-- Helper to state concrete positions. -/
def mkGS (rows : List (List Char)) (tm : Char) (cK cQ ck cq : Bool)
    (ep : Option String) (hm fm : Int) : GameState :=
  ⟨mkBoard rows, tm, ⟨cK, cQ, ck, cq⟩, ep, hm, fm, []⟩

/-! ### Basic board-access lemmas -/

theorem setc_apply_ne (b : Board) (r c : Int) (ch : Char) (i j : Fin 8)
    (h : ¬((i.val : Int) = r ∧ (j.val : Int) = c)) : setc b r c ch i j = b i j := by
  simp only [setc, if_neg h]

theorem getc_setc_ne (b : Board) (r c : Int) (ch : Char) (r' c' : Int)
    (h : ¬(r' = r ∧ c' = c)) : getc (setc b r c ch) r' c' = getc b r' c' := by
  by_cases hb : in_bounds r' c'
  · unfold getc
    rw [dif_pos hb, dif_pos hb]
    apply setc_apply_ne
    rintro ⟨h1, h2⟩
    have hb' : 0 ≤ r' ∧ r' < 8 ∧ 0 ≤ c' ∧ c' < 8 := hb
    rw [Int.toNat_of_nonneg hb'.1] at h1
    rw [Int.toNat_of_nonneg hb'.2.2.1] at h2
    exact h ⟨h1, h2⟩
  · unfold getc
    rw [dif_neg hb, dif_neg hb]

theorem getc_setc_same (b : Board) (r c : Int) (ch : Char) (h : in_bounds r c) :
    getc (setc b r c ch) r c = ch := by
  unfold getc
  rw [dif_pos h]
  have h' : 0 ≤ r ∧ r < 8 ∧ 0 ≤ c ∧ c < 8 := h
  simp only [setc, Int.toNat_of_nonneg h'.1, Int.toNat_of_nonneg h'.2.2.1, and_self, if_pos]

/-! ### Concrete positions used as witnesses and counterexamples -/

/-- White: Ke1, Rh1 (castling right K); Black: Ke8.  White may castle
king side. -/
def c1GS : GameState := mkGS
  [['.', '.', '.', '.', 'k', '.', '.', '.'],
   ['.', '.', '.', '.', '.', '.', '.', '.'],
   ['.', '.', '.', '.', '.', '.', '.', '.'],
   ['.', '.', '.', '.', '.', '.', '.', '.'],
   ['.', '.', '.', '.', '.', '.', '.', '.'],
   ['.', '.', '.', '.', '.', '.', '.', '.'],
   ['.', '.', '.', '.', '.', '.', '.', '.'],
   ['.', '.', '.', '.', 'K', '.', '.', 'R']] 'w' true false false false none 0 1

/-- White: Ra1, Ke1; Black: ra8, ke8; black to move; rights Q and q. -/
def c2GS : GameState := mkGS
  [['r', '.', '.', '.', 'k', '.', '.', '.'],
   ['.', '.', '.', '.', '.', '.', '.', '.'],
   ['.', '.', '.', '.', '.', '.', '.', '.'],
   ['.', '.', '.', '.', '.', '.', '.', '.'],
   ['.', '.', '.', '.', '.', '.', '.', '.'],
   ['.', '.', '.', '.', '.', '.', '.', '.'],
   ['.', '.', '.', '.', '.', '.', '.', '.'],
   ['R', '.', '.', '.', 'K', '.', '.', '.']] 'b' false true false true none 0 1

/-- Board with a white king only; used with side `'b'` as a kingless query. -/
def kinglessGS : GameState := mkGS
  [['.', '.', '.', '.', '.', '.', '.', '.'],
   ['.', '.', '.', '.', '.', '.', '.', '.'],
   ['.', '.', '.', '.', '.', '.', '.', '.'],
   ['.', '.', '.', '.', '.', '.', '.', '.'],
   ['.', '.', '.', '.', '.', '.', '.', '.'],
   ['.', '.', '.', '.', '.', '.', '.', '.'],
   ['.', '.', '.', '.', '.', '.', '.', '.'],
   ['.', '.', '.', '.', 'K', '.', '.', '.']] 'b' false false false false none 0 1

/-! ### C5: checkmate / stalemate detection -/

/-- C5: `is_checkmate` holds exactly when the side to move is in check with
no legal moves, and `is_stalemate` exactly when it is not in check with no
legal moves. -/
theorem game_end_detector (gs : GameState) :
    (is_checkmate gs = true ↔
      in_check gs gs.to_move = true ∧ (generate_moves gs).length = 0) ∧
    (is_stalemate gs = true ↔
      in_check gs gs.to_move = false ∧ (generate_moves gs).length = 0) := by
  unfold is_checkmate is_stalemate
  cases h : in_check gs gs.to_move <;> simp [h]

/-! ### C8: a kingless side is reported as in check -/

/-- C8: when `king_position` finds no king for the queried side, `in_check`
returns `true` instead of raising. -/
theorem in_check_kingless (gs : GameState) (side : Char)
    (h : king_position gs.board side = none) : in_check gs side = true := by
  unfold in_check
  rw [h]

/-- Witness: a board holding only a white king is kingless for black, and
`in_check` reports black as in check there. -/
theorem in_check_kingless_witness :
    king_position kinglessGS.board 'b' = none ∧ in_check kinglessGS 'b' = true :=
  ⟨by decide, in_check_kingless kinglessGS 'b' (by decide)⟩

/-! ### C1: the apply/undo round-trip law fails for castling -/

/-- C1 (failing input): in `c1GS` the king-side castle `e1g1` is a legal
move, yet applying it with `make_move` and then calling `undo` yields a
position whose serialized record differs from the original (the rook is
left on f1 and h1 stays empty, because `undo` restores only the two
endpoint squares). -/
theorem undo_round_trip_fails_for_castling :
    (⟨7, 4, 7, 6, none⟩ : Move) ∈ generate_moves c1GS ∧
    fen (undo (make_move c1GS ⟨7, 4, 7, 6, none⟩)) ≠ fen c1GS := by decide

/-! ### C2: castling-rights update -/

/-- C2 (counterexample): in `c2GS` the black rook's capture `a8xa1` is a
legal move landing on the white queen-side rook home square a1, yet after
`make_move` the white queen-side castling right is still held: the source
skips the clearing whenever the piece now standing on the home square is
itself a rook (of either color). -/
theorem castling_rights_capture_cex :
    (⟨0, 0, 7, 0, none⟩ : Move) ∈ generate_moves c2GS ∧
    getc c2GS.board 7 0 ≠ '.' ∧
    (make_move c2GS ⟨0, 0, 7, 0, none⟩).castling.Q = true := by decide

theorem getc_oob (b : Board) (r c : Int) (h : ¬in_bounds r c) : getc b r c = '.' := by
  unfold getc
  rw [dif_neg h]

theorem uc_white_king (cast : Castle) (b3 : Board) (piece : Char) (m : Move)
    (h : piece = 'K') :
    (update_castling cast b3 piece m).K = false ∧
    (update_castling cast b3 piece m).Q = false := by
  unfold update_castling
  subst h
  split_ifs <;> simp_all

theorem uc_black_king (cast : Castle) (b3 : Board) (piece : Char) (m : Move)
    (h : piece = 'k') :
    (update_castling cast b3 piece m).k = false ∧
    (update_castling cast b3 piece m).q = false := by
  unfold update_castling
  subst h
  split_ifs <;> simp_all

theorem uc_home_Q (cast : Castle) (b3 : Board) (piece : Char) (m : Move)
    (hcond : (m.fr = 7 ∧ m.fc = 0) ∨ (m.tr = 7 ∧ m.tc = 0))
    (hR : (getc b3 7 0).toUpper ≠ 'R') :
    (update_castling cast b3 piece m).Q = false := by
  unfold update_castling
  split_ifs <;> simp_all

theorem uc_home_K (cast : Castle) (b3 : Board) (piece : Char) (m : Move)
    (hcond : (m.fr = 7 ∧ m.fc = 7) ∨ (m.tr = 7 ∧ m.tc = 7))
    (hR : (getc b3 7 7).toUpper ≠ 'R') :
    (update_castling cast b3 piece m).K = false := by
  unfold update_castling
  split_ifs <;> simp_all

theorem uc_home_q (cast : Castle) (b3 : Board) (piece : Char) (m : Move)
    (hcond : (m.fr = 0 ∧ m.fc = 0) ∨ (m.tr = 0 ∧ m.tc = 0))
    (hR : (getc b3 0 0).toUpper ≠ 'R') :
    (update_castling cast b3 piece m).q = false := by
  unfold update_castling
  split_ifs <;> simp_all

theorem uc_home_k (cast : Castle) (b3 : Board) (piece : Char) (m : Move)
    (hcond : (m.fr = 0 ∧ m.fc = 7) ∨ (m.tr = 0 ∧ m.tc = 7))
    (hR : (getc b3 0 7).toUpper ≠ 'R') :
    (update_castling cast b3 piece m).k = false := by
  unfold update_castling
  split_ifs <;> simp_all

/-- A non-king non-pawn piece's source square is empty after the move
(used for the "rook leaves its home square" clause). -/
theorem apply_board_source_cleared (b : Board) (ep : Option String) (m : Move)
    (hpiece : (getc b m.fr m.fc).toUpper = 'R')
    (hne : ¬(m.tr = m.fr ∧ m.tc = m.fc)) :
    getc (apply_board b ep m) m.fr m.fc = '.' := by
  have hin : in_bounds m.fr m.fc := by
    by_contra hno
    rw [getc_oob b m.fr m.fc hno] at hpiece
    exact absurd hpiece (by decide)
  have hK : ¬((getc b m.fr m.fc).toUpper = 'K' ∧ (m.tc - m.fc = 2 ∨ m.fc - m.tc = 2)) := by
    rintro ⟨hk, -⟩
    rw [hpiece] at hk
    exact absurd hk (by decide)
  have hP : (getc b m.fr m.fc).toUpper ≠ 'P' := by
    rw [hpiece]
    decide
  simp only [apply_board]
  rw [if_neg hK]
  have hb2 :
      (if (getc b m.fr m.fc).toUpper = 'P' ∧ ep.isSome then
        (if m.tr = (algebraic_to_coords (ep.getD "")).1 ∧
            m.tc = (algebraic_to_coords (ep.getD "")).2 ∧
            m.fc ≠ m.tc ∧ getc b m.tr m.tc = '.' then
          setc (setc b m.fr m.fc '.') m.fr m.tc '.'
        else setc b m.fr m.fc '.')
      else setc b m.fr m.fc '.') = setc b m.fr m.fc '.' := by
    rw [if_neg]
    rintro ⟨hp, -⟩
    exact hP hp
  rw [hb2]
  have hne' : ¬(m.fr = m.tr ∧ m.fc = m.tc) := fun hx => hne ⟨hx.1.symm, hx.2.symm⟩
  split_ifs with hprom hup
  · exact absurd hprom.2.1 hP
  · exact absurd hprom.2.1 hP
  · rw [getc_setc_ne _ _ _ _ _ _ hne', getc_setc_same _ _ _ _ hin]

/-- C2 (amended): after `make_move`, moving a king clears both castling
rights of that color; a rook leaving one of the four rook home squares
clears the matching right; and a capture landing on one of those squares
clears the matching right unless the piece standing on that square after
the move is itself a rook (of either color), in which case the source
leaves the right unchanged. -/
theorem castling_rights_update (gs : GameState) (m : Move)
    (hne : ¬(m.tr = m.fr ∧ m.tc = m.fc)) :
    ((getc gs.board m.fr m.fc = 'K' →
        (make_move gs m).castling.K = false ∧ (make_move gs m).castling.Q = false) ∧
     (getc gs.board m.fr m.fc = 'k' →
        (make_move gs m).castling.k = false ∧ (make_move gs m).castling.q = false)) ∧
    ((getc gs.board m.fr m.fc).toUpper = 'R' →
      ((m.fr = 7 ∧ m.fc = 0 → (make_move gs m).castling.Q = false) ∧
       (m.fr = 7 ∧ m.fc = 7 → (make_move gs m).castling.K = false) ∧
       (m.fr = 0 ∧ m.fc = 0 → (make_move gs m).castling.q = false) ∧
       (m.fr = 0 ∧ m.fc = 7 → (make_move gs m).castling.k = false))) ∧
    (getc gs.board m.tr m.tc ≠ '.' →
      ((m.tr = 7 ∧ m.tc = 0 → (getc (make_move gs m).board 7 0).toUpper ≠ 'R' →
          (make_move gs m).castling.Q = false) ∧
       (m.tr = 7 ∧ m.tc = 7 → (getc (make_move gs m).board 7 7).toUpper ≠ 'R' →
          (make_move gs m).castling.K = false) ∧
       (m.tr = 0 ∧ m.tc = 0 → (getc (make_move gs m).board 0 0).toUpper ≠ 'R' →
          (make_move gs m).castling.q = false) ∧
       (m.tr = 0 ∧ m.tc = 7 → (getc (make_move gs m).board 0 7).toUpper ≠ 'R' →
          (make_move gs m).castling.k = false))) := by
  have hcast : (make_move gs m).castling =
      update_castling gs.castling (apply_board gs.board gs.en_passant m)
        (getc gs.board m.fr m.fc) m := rfl
  have hboard : (make_move gs m).board = apply_board gs.board gs.en_passant m := rfl
  refine ⟨⟨fun hk => ?_, fun hk => ?_⟩, fun hr => ⟨?_, ?_, ?_, ?_⟩, fun _ => ⟨?_, ?_, ?_, ?_⟩⟩
  · rw [hcast]; exact uc_white_king _ _ _ _ hk
  · rw [hcast]; exact uc_black_king _ _ _ _ hk
  · rintro ⟨h1, h2⟩
    rw [hcast]
    refine uc_home_Q _ _ _ _ (Or.inl ⟨h1, h2⟩) ?_
    have := apply_board_source_cleared gs.board gs.en_passant m hr hne
    rw [h1, h2] at this
    rw [this]
    decide
  · rintro ⟨h1, h2⟩
    rw [hcast]
    refine uc_home_K _ _ _ _ (Or.inl ⟨h1, h2⟩) ?_
    have := apply_board_source_cleared gs.board gs.en_passant m hr hne
    rw [h1, h2] at this
    rw [this]
    decide
  · rintro ⟨h1, h2⟩
    rw [hcast]
    refine uc_home_q _ _ _ _ (Or.inl ⟨h1, h2⟩) ?_
    have := apply_board_source_cleared gs.board gs.en_passant m hr hne
    rw [h1, h2] at this
    rw [this]
    decide
  · rintro ⟨h1, h2⟩
    rw [hcast]
    refine uc_home_k _ _ _ _ (Or.inl ⟨h1, h2⟩) ?_
    have := apply_board_source_cleared gs.board gs.en_passant m hr hne
    rw [h1, h2] at this
    rw [this]
    decide
  · intro hd hR
    rw [hcast]
    exact uc_home_Q _ _ _ _ (Or.inr hd) (by rw [hboard] at hR; exact hR)
  · intro hd hR
    rw [hcast]
    exact uc_home_K _ _ _ _ (Or.inr hd) (by rw [hboard] at hR; exact hR)
  · intro hd hR
    rw [hcast]
    exact uc_home_q _ _ _ _ (Or.inr hd) (by rw [hboard] at hR; exact hR)
  · intro hd hR
    rw [hcast]
    exact uc_home_k _ _ _ _ (Or.inr hd) (by rw [hboard] at hR; exact hR)

/-- Witness: the white rook's quiet move `h1h3` in `c1GS` clears the white
king-side right by the amended rule. -/
theorem castling_rights_update_witness :
    (make_move c1GS ⟨7, 7, 5, 7, none⟩).castling.K = false :=
  (((castling_rights_update c1GS ⟨7, 7, 5, 7, none⟩ (by decide)).2.1
    (by decide)).2.1) (by decide)

/-! ### C9: frame effect of `make_move` on the board -/

/-- C9: for a move that is neither a castling king move (a king moving two
files) nor an en-passant capture (a pawn moving diagonally onto the
en-passant target with the destination empty — the source's exact guard),
`make_move` changes the board only at the move's source and destination
squares. -/
theorem make_move_frame (gs : GameState) (m : Move) (i j : Fin 8)
    (hcastle : ¬((getc gs.board m.fr m.fc).toUpper = 'K' ∧
      (m.tc - m.fc = 2 ∨ m.fc - m.tc = 2)))
    (hep : ¬((getc gs.board m.fr m.fc).toUpper = 'P' ∧ gs.en_passant.isSome ∧
      m.tr = (algebraic_to_coords (gs.en_passant.getD "")).1 ∧
      m.tc = (algebraic_to_coords (gs.en_passant.getD "")).2 ∧
      m.fc ≠ m.tc ∧ getc gs.board m.tr m.tc = '.'))
    (hsrc : ¬((i.val : Int) = m.fr ∧ (j.val : Int) = m.fc))
    (hdst : ¬((i.val : Int) = m.tr ∧ (j.val : Int) = m.tc)) :
    (make_move gs m).board i j = gs.board i j := by
  show apply_board gs.board gs.en_passant m i j = gs.board i j
  simp only [apply_board]
  rw [if_neg hcastle]
  have hb2 :
      (if (getc gs.board m.fr m.fc).toUpper = 'P' ∧ gs.en_passant.isSome then
        (if m.tr = (algebraic_to_coords (gs.en_passant.getD "")).1 ∧
            m.tc = (algebraic_to_coords (gs.en_passant.getD "")).2 ∧
            m.fc ≠ m.tc ∧ getc gs.board m.tr m.tc = '.' then
          setc (setc gs.board m.fr m.fc '.') m.fr m.tc '.'
        else setc gs.board m.fr m.fc '.')
      else setc gs.board m.fr m.fc '.') = setc gs.board m.fr m.fc '.' := by
    split_ifs with h1 h2
    · exact absurd ⟨h1.1, h1.2, h2.1, h2.2.1, h2.2.2.1, h2.2.2.2⟩ hep
    · rfl
    · rfl
  rw [hb2]
  split_ifs with hprom hup
  · rw [setc_apply_ne _ _ _ _ _ _ hdst, setc_apply_ne _ _ _ _ _ _ hsrc]
  · rw [setc_apply_ne _ _ _ _ _ _ hdst, setc_apply_ne _ _ _ _ _ _ hsrc]
  · rw [setc_apply_ne _ _ _ _ _ _ hdst, setc_apply_ne _ _ _ _ _ _ hsrc]

/-- Witness: applying `e2e4` from `c1GS` leaves the a8 corner square (and,
by the theorem, every square other than e2/e4) unchanged. -/
theorem make_move_frame_witness :
    (make_move c1GS ⟨6, 4, 4, 4, none⟩).board ⟨0, by omega⟩ ⟨0, by omega⟩ =
      c1GS.board ⟨0, by omega⟩ ⟨0, by omega⟩ :=
  make_move_frame c1GS ⟨6, 4, 4, 4, none⟩ ⟨0, by omega⟩ ⟨0, by omega⟩
    (by decide) (by decide) (by decide) (by decide)

/-! ### C3: the evaluator -/

/-- The claim's signed piece values, written out from the spec's words:
pawn 100, knight 320, bishop 330, rook 500, queen 900, king 0; positive
for white (uppercase), negative for black (lowercase). -/
def spec_signed_value (c : Char) : Int :=
  if c = 'P' then 100 else if c = 'N' then 320 else if c = 'B' then 330
  else if c = 'R' then 500 else if c = 'Q' then 900 else if c = 'K' then 0
  else if c = 'p' then -100 else if c = 'n' then -320 else if c = 'b' then -330
  else if c = 'r' then -500 else if c = 'q' then -900 else if c = 'k' then 0
  else 0

/-- Material as described by the claim: the sum of signed piece values over
the 64 squares. -/
def material_spec (gs : GameState) : Int :=
  allRC.foldl (fun s rc => s + spec_signed_value (getc gs.board rc.1 rc.2)) 0

theorem char_eq_of_toNat (c d : Char) (h : c.toNat = d.toNat) : c = d := by
  have h2 := congrArg Char.ofNat h
  rwa [Char.ofNat_toNat, Char.ofNat_toNat] at h2

theorem toUpper_eq_self (c : Char) (h : ¬(97 ≤ c.toNat ∧ c.toNat ≤ 122)) :
    c.toUpper = c := by
  unfold Char.toUpper
  exact if_neg (fun hx => h ⟨hx.1, hx.2⟩)

/-- The source's per-square material contribution agrees with the claim's
signed piece value on every character. -/
theorem signed_value_eq (c : Char) :
    (if c = '.' then (0 : Int)
     else if c.isUpper then PIECE_VALUES c.toUpper else -(PIECE_VALUES c.toUpper)) =
    spec_signed_value c := by
  by_cases hl : 97 ≤ c.toNat ∧ c.toNat ≤ 122
  · obtain ⟨h1, h2⟩ := hl
    have hc : c = Char.ofNat c.toNat := (Char.ofNat_toNat c).symm
    rw [hc]
    generalize hg : c.toNat = n at h1 h2
    interval_cases n <;> decide
  · by_cases hu : 65 ≤ c.toNat ∧ c.toNat ≤ 90
    · obtain ⟨h1, h2⟩ := hu
      have hc : c = Char.ofNat c.toNat := (Char.ofNat_toNat c).symm
      rw [hc]
      generalize hg : c.toNat = n at h1 h2
      interval_cases n <;> decide
    · -- `c` is not an ASCII letter: both sides are zero
      have hne : ∀ d : Char, (65 ≤ d.toNat ∧ d.toNat ≤ 90) ∨ (97 ≤ d.toNat ∧ d.toNat ≤ 122) →
          c ≠ d := by
        rintro d hd rfl
        rcases hd with h | h
        · exact hu h
        · exact hl h
      have hup : c.toUpper = c := toUpper_eq_self c hl
      have hpv : PIECE_VALUES c = 0 := by
        unfold PIECE_VALUES
        rw [if_neg (hne 'K' (by left; decide)), if_neg (hne 'Q' (by left; decide)),
          if_neg (hne 'R' (by left; decide)), if_neg (hne 'B' (by left; decide)),
          if_neg (hne 'N' (by left; decide)), if_neg (hne 'P' (by left; decide))]
      have hsv : spec_signed_value c = 0 := by
        unfold spec_signed_value
        rw [if_neg (hne 'P' (by left; decide)), if_neg (hne 'N' (by left; decide)),
          if_neg (hne 'B' (by left; decide)), if_neg (hne 'R' (by left; decide)),
          if_neg (hne 'Q' (by left; decide)), if_neg (hne 'K' (by left; decide)),
          if_neg (hne 'p' (by right; decide)), if_neg (hne 'n' (by right; decide)),
          if_neg (hne 'b' (by right; decide)), if_neg (hne 'r' (by right; decide)),
          if_neg (hne 'q' (by right; decide)), if_neg (hne 'k' (by right; decide))]
      rw [hup, hpv, hsv]
      split_ifs <;> simp

theorem material_score_eq_spec (gs : GameState) :
    material_score gs = material_spec gs := by
  unfold material_score material_spec
  apply List.foldl_ext
  intro s rc _
  unfold material_step
  rw [← signed_value_eq (getc gs.board rc.1 rc.2)]
  by_cases h1 : getc gs.board rc.1 rc.2 = '.'
  · simp [h1]
  · by_cases h2 : (getc gs.board rc.1 rc.2).isUpper <;> simp [h1, h2]

/-- C3 (amended): `evaluate` is material plus 10 × (mobility of the side to
move − mobility of the opponent), with the claim's piece values; the
mobility difference is taken from the side to move's perspective (see the
counterexample for why the total is therefore not white-positive). -/
theorem evaluate_material_mobility (gs : GameState) :
    evaluate gs = material_spec gs +
      10 * (((generate_moves gs).length : Int) -
        ((generate_moves { gs with to_move := enemy gs.to_move }).length : Int)) := by
  unfold evaluate
  rw [material_score_eq_spec]

/-- Case-swap of a piece character (helper for the color mirror). -/
def flip_case (c : Char) : Char :=
  if c.isUpper then c.toLower else if c.isLower then c.toUpper else c

/-- Mirror an en-passant square vertically. -/
def mirror_ep (ep : Option String) : Option String :=
  ep.map (fun s =>
    let e := algebraic_to_coords s
    coords_to_algebraic (7 - e.1) e.2)

/-- The color mirror of a position: flip the board vertically, swap piece
colors, swap the castling rights, flip the side to move and the en-passant
square.  A white-positive ("a higher score always favors white") evaluation
must negate under this transformation. -/
def colorMirror (gs : GameState) : GameState :=
  ⟨fun i j => flip_case (gs.board i.rev j), enemy gs.to_move,
   ⟨gs.castling.k, gs.castling.q, gs.castling.K, gs.castling.Q⟩,
   mirror_ep gs.en_passant, gs.halfmove_clock, gs.fullmove_number, []⟩

/-- Black: qd8, ke8; White: Ke1; black to move. -/
def c3GS : GameState := mkGS
  [['.', '.', '.', 'q', 'k', '.', '.', '.'],
   ['.', '.', '.', '.', '.', '.', '.', '.'],
   ['.', '.', '.', '.', '.', '.', '.', '.'],
   ['.', '.', '.', '.', '.', '.', '.', '.'],
   ['.', '.', '.', '.', '.', '.', '.', '.'],
   ['.', '.', '.', '.', '.', '.', '.', '.'],
   ['.', '.', '.', '.', '.', '.', '.', '.'],
   ['.', '.', '.', '.', 'K', '.', '.', '.']] 'b' false false false false none 0 1

/-- C3 (counterexample): `evaluate` is not white-positive.  In `c3GS`
(black queen against lone white king, black to move) the score of the
color-mirrored position is not the negation of the score: the mobility
term is computed from the side to move's perspective, so with black to
move a larger black mobility *raises* the score, which a score in which
"higher always favors white" cannot do. -/
theorem evaluate_not_white_positive :
    evaluate (colorMirror c3GS) ≠ -(evaluate c3GS) := by decide

/-! ### C4: `negamax` on positions with no legal moves -/

/-- Black: kh8; White: Qg7, Kf6; black to move is checkmated. -/
def mateGS : GameState := mkGS
  [['.', '.', '.', '.', '.', '.', '.', 'k'],
   ['.', '.', '.', '.', '.', '.', 'Q', '.'],
   ['.', '.', '.', '.', '.', 'K', '.', '.'],
   ['.', '.', '.', '.', '.', '.', '.', '.'],
   ['.', '.', '.', '.', '.', '.', '.', '.'],
   ['.', '.', '.', '.', '.', '.', '.', '.'],
   ['.', '.', '.', '.', '.', '.', '.', '.'],
   ['.', '.', '.', '.', '.', '.', '.', '.']] 'b' false false false false none 0 1

/-- At positive depth with no legal moves, `negamax` returns the mated or
stalemate value with a null move (shared helper). -/
theorem negamax_terminal (gs : GameState) (k : Nat) (alpha beta : Int)
    (h : generate_moves gs = []) :
    negamax (k + 1) gs alpha beta =
      (if in_check gs gs.to_move then -999999 + (10 - ((k : Int) + 1)) else 0, none) := by
  cases hc : in_check gs gs.to_move <;> simp [negamax, h, hc]

/-- C4: at every depth > 0, on a position with zero legal moves `negamax`
returns a null move; the score is 0 when not in check, and when in check it
is the fixed large negative mated value `-999999` plus `10 - depth`, which
strictly decreases as the remaining depth grows (being mated sooner scores
strictly worse). -/
theorem negamax_no_moves (gs : GameState) (d : Nat) (alpha beta : Int)
    (hd : 0 < d) (h : generate_moves gs = []) :
    negamax d gs alpha beta =
      (if in_check gs gs.to_move then -999999 + (10 - (d : Int)) else 0, none) ∧
    (∀ d2 : Nat, d < d2 → in_check gs gs.to_move = true →
      (negamax d2 gs alpha beta).1 < (negamax d gs alpha beta).1) := by
  obtain ⟨k, rfl⟩ : ∃ k, d = k + 1 := ⟨d - 1, by omega⟩
  have h1 := negamax_terminal gs k alpha beta h
  constructor
  · simpa using h1
  · intro d2 hlt hc
    obtain ⟨k2, rfl⟩ : ∃ k2, d2 = k2 + 1 := ⟨d2 - 1, by omega⟩
    rw [h1, negamax_terminal gs k2 alpha beta h, hc]
    have hk : (k : Int) < (k2 : Int) := by exact_mod_cast (by omega : k < k2)
    simp only [if_true]
    omega

/-- Witness: the checkmated position `mateGS` at depth 1 versus depth 2. -/
theorem negamax_no_moves_witness :
    negamax 1 mateGS (-5) 5 =
      (if in_check mateGS mateGS.to_move then -999999 + (10 - (1 : Int)) else 0, none) ∧
    (∀ d2 : Nat, 1 < d2 → in_check mateGS mateGS.to_move = true →
      (negamax d2 mateGS (-5) 5).1 < (negamax 1 mateGS (-5) 5).1) :=
  negamax_no_moves mateGS 1 (-5) 5 (by decide) (by decide)

/-! ### C6: castling candidate emission

Every emitter only produces moves whose source is the square being
processed; this pins the castling candidates to the king's square. -/

theorem ray_moves_src (b : Board) (side : Char) (r0 c0 : Int) (fuel : Nat)
    (r c dr dc : Int) (m : Move) (h : m ∈ ray_moves b side r0 c0 fuel r c dr dc) :
    m.fr = r0 ∧ m.fc = c0 := by
  induction fuel generalizing r c with
  | zero => simp [ray_moves] at h
  | succ n ih =>
    unfold ray_moves at h
    split_ifs at h with h1 h2 h3
    · rcases List.mem_cons.mp h with rfl | hm
      · exact ⟨rfl, rfl⟩
      · exact ih _ _ hm
    · rw [List.mem_singleton] at h
      subst h
      exact ⟨rfl, rfl⟩
    · simp at h
    · simp at h

/-- All moves of a list have this source square. -/
def srcOK (r c : Int) (l : List Move) : Prop := ∀ m ∈ l, m.fr = r ∧ m.fc = c

theorem srcOK_nil (r c : Int) : srcOK r c [] := by simp [srcOK]

theorem srcOK_cons (r c : Int) (m0 : Move) (l : List Move)
    (h0 : m0.fr = r ∧ m0.fc = c) (h : srcOK r c l) : srcOK r c (m0 :: l) := by
  intro m hm
  rcases List.mem_cons.mp hm with rfl | hm
  · exact h0
  · exact h m hm

theorem srcOK_append (r c : Int) (l1 l2 : List Move)
    (h1 : srcOK r c l1) (h2 : srcOK r c l2) : srcOK r c (l1 ++ l2) := by
  intro m hm
  rcases List.mem_append.mp hm with hm | hm
  · exact h1 m hm
  · exact h2 m hm

theorem srcOK_ite (r c : Int) (C : Prop) [Decidable C] (l1 l2 : List Move)
    (h1 : C → srcOK r c l1) (h2 : srcOK r c l2) : srcOK r c (if C then l1 else l2) := by
  by_cases hc : C
  · rw [if_pos hc]; exact h1 hc
  · rw [if_neg hc]; exact h2

theorem srcOK_map {α : Type} (r c : Int) (l : List α) (f : α → Move)
    (h : ∀ x, (f x).fr = r ∧ (f x).fc = c) : srcOK r c (l.map f) := by
  intro m hm
  obtain ⟨x, -, rfl⟩ := List.mem_map.mp hm
  exact h x

theorem srcOK_flatMap {α : Type} (r c : Int) (l : List α) (f : α → List Move)
    (h : ∀ x, srcOK r c (f x)) : srcOK r c (l.flatMap f) := by
  intro m hm
  obtain ⟨x, -, hm⟩ := List.mem_flatMap.mp hm
  exact h x m hm

theorem ray_moves_srcOK (b : Board) (side : Char) (r0 c0 : Int) (fuel : Nat)
    (r c dr dc : Int) : srcOK r0 c0 (ray_moves b side r0 c0 fuel r c dr dc) :=
  fun m hm => ray_moves_src b side r0 c0 fuel r c dr dc m hm

theorem sliding_moves_srcOK (b : Board) (r c : Int) (dirs : List (Int × Int)) :
    srcOK r c (sliding_moves b r c dirs) := by
  unfold sliding_moves
  exact srcOK_flatMap _ _ _ _ (fun d => ray_moves_srcOK _ _ _ _ _ _ _ _ _)

theorem knight_moves_srcOK (b : Board) (r c : Int) : srcOK r c (knight_moves b r c) := by
  unfold knight_moves
  exact srcOK_flatMap _ _ _ _
    (fun d => srcOK_ite _ _ _ _ _
      (fun _ => srcOK_cons _ _ _ _ ⟨rfl, rfl⟩ (srcOK_nil _ _)) (srcOK_nil _ _))

theorem pawn_moves_srcOK (b : Board) (ep : Option String) (r c : Int) :
    srcOK r c (pawn_moves b ep r c) := by
  unfold pawn_moves
  refine srcOK_append _ _ _ _ (srcOK_append _ _ _ _ ?_ ?_) ?_
  · refine srcOK_ite _ _ _ _ _ (fun _ => ?_) (srcOK_nil _ _)
    refine srcOK_ite _ _ _ _ _ (fun _ => srcOK_map _ _ _ _ (fun q => ⟨rfl, rfl⟩)) ?_
    refine srcOK_cons _ _ _ _ ⟨rfl, rfl⟩ ?_
    exact srcOK_ite _ _ _ _ _
      (fun _ => srcOK_cons _ _ _ _ ⟨rfl, rfl⟩ (srcOK_nil _ _)) (srcOK_nil _ _)
  · refine srcOK_flatMap _ _ _ _ (fun dc => ?_)
    refine srcOK_ite _ _ _ _ _ (fun _ => ?_) (srcOK_nil _ _)
    exact srcOK_ite _ _ _ _ _ (fun _ => srcOK_map _ _ _ _ (fun q => ⟨rfl, rfl⟩))
      (srcOK_cons _ _ _ _ ⟨rfl, rfl⟩ (srcOK_nil _ _))
  · cases ep with
    | none => exact srcOK_nil _ _
    | some s =>
      exact srcOK_ite _ _ _ _ _
        (fun _ => srcOK_cons _ _ _ _ ⟨rfl, rfl⟩ (srcOK_nil _ _)) (srcOK_nil _ _)

theorem king_moves_srcOK (gs : GameState) (r c : Int) : srcOK r c (king_moves gs r c) := by
  unfold king_moves king_normal_moves king_castle_w king_castle_b
  refine srcOK_append _ _ _ _ (srcOK_append _ _ _ _ ?_ ?_) ?_
  · exact srcOK_flatMap _ _ _ _
      (fun d => srcOK_ite _ _ _ _ _
        (fun _ => srcOK_cons _ _ _ _ ⟨rfl, rfl⟩ (srcOK_nil _ _)) (srcOK_nil _ _))
  · refine srcOK_ite _ _ _ _ _ (fun hc => ?_) (srcOK_nil _ _)
    obtain ⟨-, h7, h4⟩ := hc
    subst h7; subst h4
    refine srcOK_append _ _ _ _ ?_ ?_ <;>
      exact srcOK_ite _ _ _ _ _
        (fun _ => srcOK_cons _ _ _ _ ⟨rfl, rfl⟩ (srcOK_nil _ _)) (srcOK_nil _ _)
  · refine srcOK_ite _ _ _ _ _ (fun hc => ?_) (srcOK_nil _ _)
    obtain ⟨-, h0, h4⟩ := hc
    subst h0; subst h4
    refine srcOK_append _ _ _ _ ?_ ?_ <;>
      exact srcOK_ite _ _ _ _ _
        (fun _ => srcOK_cons _ _ _ _ ⟨rfl, rfl⟩ (srcOK_nil _ _)) (srcOK_nil _ _)

theorem square_moves_src (gs : GameState) (r c : Int) (m : Move)
    (h : m ∈ square_moves gs r c) : m.fr = r ∧ m.fc = c := by
  simp only [square_moves] at h
  split_ifs at h
  · simp at h
  · simp at h
  · exact pawn_moves_srcOK _ _ _ _ m h
  · exact knight_moves_srcOK _ _ _ m h
  · exact sliding_moves_srcOK _ _ _ _ m h
  · exact sliding_moves_srcOK _ _ _ _ m h
  · exact sliding_moves_srcOK _ _ _ _ m h
  · exact king_moves_srcOK _ _ _ m h
  · simp at h

/-- A move belongs to the pseudo-legal list exactly when its own source
square emits it. -/
theorem mem_pseudo_moves_iff (gs : GameState) (m : Move)
    (hin : (m.fr, m.fc) ∈ allRC) :
    m ∈ pseudo_moves gs ↔ m ∈ square_moves gs m.fr m.fc := by
  unfold pseudo_moves
  rw [List.mem_flatMap]
  constructor
  · rintro ⟨rc, hrc, hm⟩
    obtain ⟨h1, h2⟩ := square_moves_src gs rc.1 rc.2 m hm
    rw [h1, h2]
    exact hm
  · intro hm
    exact ⟨(m.fr, m.fc), hin, hm⟩

/-- A move whose file distance is two is never among the eight-neighbor
king moves. -/
theorem castle_not_mem_normal (b : Board) (m : Move)
    (hm : m.tc - m.fc = 2 ∨ m.fc - m.tc = 2) :
    m ∉ king_normal_moves b m.fr m.fc := by
  intro h
  unfold king_normal_moves at h
  obtain ⟨d, hd, hmem⟩ := List.mem_flatMap.mp h
  dsimp only at hmem
  split_ifs at hmem
  · rw [List.mem_singleton] at hmem
    fin_cases hd <;> (rw [hmem] at hm; dsimp only at hm; omega)
  · simp at hmem

theorem king_castle_b_empty_of_w (gs : GameState) (r c : Int)
    (hk : (piece_color (getc gs.board r c)).getD 'b' = 'w') :
    king_castle_b gs r c = [] := by
  simp only [king_castle_b, hk]
  rw [if_neg]
  rintro ⟨h, -⟩
  exact absurd h (by decide)

theorem king_castle_w_empty_of_b (gs : GameState) (r c : Int)
    (hk : (piece_color (getc gs.board r c)).getD 'b' = 'b') :
    king_castle_w gs r c = [] := by
  simp only [king_castle_w, hk]
  rw [if_neg]
  rintro ⟨h, -⟩
  exact absurd h (by decide)

theorem mem_king_castle_w (gs : GameState)
    (hk : (piece_color (getc gs.board 7 4)).getD 'b' = 'w') :
    (((⟨7, 4, 7, 6, none⟩ : Move) ∈ king_castle_w gs 7 4) ↔
      (gs.castling.K = true ∧ getc gs.board 7 5 = '.' ∧ getc gs.board 7 6 = '.' ∧
       is_attacked gs.board 7 4 'b' = false ∧ is_attacked gs.board 7 5 'b' = false ∧
       is_attacked gs.board 7 6 'b' = false)) ∧
    (((⟨7, 4, 7, 2, none⟩ : Move) ∈ king_castle_w gs 7 4) ↔
      (gs.castling.Q = true ∧ getc gs.board 7 3 = '.' ∧ getc gs.board 7 2 = '.' ∧
       getc gs.board 7 1 = '.' ∧
       is_attacked gs.board 7 4 'b' = false ∧ is_attacked gs.board 7 3 'b' = false ∧
       is_attacked gs.board 7 2 'b' = false)) := by
  simp only [king_castle_w, hk]
  rw [if_pos (by simp)]
  split_ifs with h1 h2 <;> constructor <;> constructor <;>
    simp_all [Move.mk.injEq]

theorem mem_king_castle_b (gs : GameState)
    (hk : (piece_color (getc gs.board 0 4)).getD 'b' = 'b') :
    (((⟨0, 4, 0, 6, none⟩ : Move) ∈ king_castle_b gs 0 4) ↔
      (gs.castling.k = true ∧ getc gs.board 0 5 = '.' ∧ getc gs.board 0 6 = '.' ∧
       is_attacked gs.board 0 4 'w' = false ∧ is_attacked gs.board 0 5 'w' = false ∧
       is_attacked gs.board 0 6 'w' = false)) ∧
    (((⟨0, 4, 0, 2, none⟩ : Move) ∈ king_castle_b gs 0 4) ↔
      (gs.castling.q = true ∧ getc gs.board 0 3 = '.' ∧ getc gs.board 0 2 = '.' ∧
       getc gs.board 0 1 = '.' ∧
       is_attacked gs.board 0 4 'w' = false ∧ is_attacked gs.board 0 3 'w' = false ∧
       is_attacked gs.board 0 2 'w' = false)) := by
  simp only [king_castle_b, hk]
  rw [if_pos (by simp)]
  split_ifs with h1 h2 <;> constructor <;> constructor <;>
    simp_all [Move.mk.injEq]

theorem square_moves_king_w (gs : GameState) (r c : Int)
    (hk : getc gs.board r c = 'K') (hw : gs.to_move = 'w') :
    square_moves gs r c = king_moves gs r c := by
  have h1 : piece_color 'K' = some 'w' := by decide
  simp only [square_moves, hk, hw, h1]
  rw [if_neg (show ¬(('K' : Char) = '.') from by decide),
    if_neg (show ¬(('K' : Char).toUpper = 'P') from by decide),
    if_neg (show ¬(('K' : Char).toUpper = 'N') from by decide),
    if_neg (show ¬(('K' : Char).toUpper = 'B') from by decide),
    if_neg (show ¬(('K' : Char).toUpper = 'R') from by decide),
    if_neg (show ¬(('K' : Char).toUpper = 'Q') from by decide),
    if_pos (show ('K' : Char).toUpper = 'K' from by decide)]
  simp

theorem square_moves_king_b (gs : GameState) (r c : Int)
    (hk : getc gs.board r c = 'k') (hb : gs.to_move = 'b') :
    square_moves gs r c = king_moves gs r c := by
  have h1 : piece_color 'k' = some 'b' := by decide
  simp only [square_moves, hk, hb, h1]
  rw [if_neg (show ¬(('k' : Char) = '.') from by decide),
    if_neg (show ¬(('k' : Char).toUpper = 'P') from by decide),
    if_neg (show ¬(('k' : Char).toUpper = 'N') from by decide),
    if_neg (show ¬(('k' : Char).toUpper = 'B') from by decide),
    if_neg (show ¬(('k' : Char).toUpper = 'R') from by decide),
    if_neg (show ¬(('k' : Char).toUpper = 'Q') from by decide),
    if_pos (show ('k' : Char).toUpper = 'K' from by decide)]
  simp

/-- C6: a castling candidate is emitted by the move generator's pseudo-legal
stage iff the corresponding right is held, the intervening squares are
empty (on the queen side including the knight-adjacent b-file square), and
the king's square and both transit squares (including the destination) are
not attacked by the opponent — stated for a king standing on its home
square, which is the only square from which the generator emits castles. -/
theorem castling_candidates (gs : GameState) :
    (gs.to_move = 'w' → getc gs.board 7 4 = 'K' →
      ((((⟨7, 4, 7, 6, none⟩ : Move) ∈ pseudo_moves gs) ↔
        (gs.castling.K = true ∧ getc gs.board 7 5 = '.' ∧ getc gs.board 7 6 = '.' ∧
         is_attacked gs.board 7 4 'b' = false ∧ is_attacked gs.board 7 5 'b' = false ∧
         is_attacked gs.board 7 6 'b' = false)) ∧
       (((⟨7, 4, 7, 2, none⟩ : Move) ∈ pseudo_moves gs) ↔
        (gs.castling.Q = true ∧ getc gs.board 7 3 = '.' ∧ getc gs.board 7 2 = '.' ∧
         getc gs.board 7 1 = '.' ∧
         is_attacked gs.board 7 4 'b' = false ∧ is_attacked gs.board 7 3 'b' = false ∧
         is_attacked gs.board 7 2 'b' = false)))) ∧
    (gs.to_move = 'b' → getc gs.board 0 4 = 'k' →
      ((((⟨0, 4, 0, 6, none⟩ : Move) ∈ pseudo_moves gs) ↔
        (gs.castling.k = true ∧ getc gs.board 0 5 = '.' ∧ getc gs.board 0 6 = '.' ∧
         is_attacked gs.board 0 4 'w' = false ∧ is_attacked gs.board 0 5 'w' = false ∧
         is_attacked gs.board 0 6 'w' = false)) ∧
       (((⟨0, 4, 0, 2, none⟩ : Move) ∈ pseudo_moves gs) ↔
        (gs.castling.q = true ∧ getc gs.board 0 3 = '.' ∧ getc gs.board 0 2 = '.' ∧
         getc gs.board 0 1 = '.' ∧
         is_attacked gs.board 0 4 'w' = false ∧ is_attacked gs.board 0 3 'w' = false ∧
         is_attacked gs.board 0 2 'w' = false)))) := by
  constructor
  · intro hw hk
    have hside : (piece_color (getc gs.board 7 4)).getD 'b' = 'w' := by
      rw [hk]; decide
    have hsq : square_moves gs 7 4 = king_moves gs 7 4 :=
      square_moves_king_w gs 7 4 hk hw
    have hcw := mem_king_castle_w gs hside
    have hcb := king_castle_b_empty_of_w gs 7 4 hside
    constructor
    · rw [mem_pseudo_moves_iff gs _ (by decide), hsq, king_moves, hcb,
        List.append_nil]
      constructor
      · intro hmem
        rcases List.mem_append.mp hmem with hn | hc
        · exact absurd hn (castle_not_mem_normal gs.board _ (by decide))
        · exact hcw.1.mp hc
      · intro hcond
        exact List.mem_append.mpr (Or.inr (hcw.1.mpr hcond))
    · rw [mem_pseudo_moves_iff gs _ (by decide), hsq, king_moves, hcb,
        List.append_nil]
      constructor
      · intro hmem
        rcases List.mem_append.mp hmem with hn | hc
        · exact absurd hn (castle_not_mem_normal gs.board _ (by decide))
        · exact hcw.2.mp hc
      · intro hcond
        exact List.mem_append.mpr (Or.inr (hcw.2.mpr hcond))
  · intro hb hk
    have hside : (piece_color (getc gs.board 0 4)).getD 'b' = 'b' := by
      rw [hk]; decide
    have hsq : square_moves gs 0 4 = king_moves gs 0 4 :=
      square_moves_king_b gs 0 4 hk hb
    have hcb := mem_king_castle_b gs hside
    have hcw := king_castle_w_empty_of_b gs 0 4 hside
    constructor
    · rw [mem_pseudo_moves_iff gs _ (by decide), hsq, king_moves, hcw,
        List.append_nil]
      constructor
      · intro hmem
        rcases List.mem_append.mp hmem with hn | hc
        · exact absurd hn (castle_not_mem_normal gs.board _ (by decide))
        · exact hcb.1.mp hc
      · intro hcond
        exact List.mem_append.mpr (Or.inr (hcb.1.mpr hcond))
    · rw [mem_pseudo_moves_iff gs _ (by decide), hsq, king_moves, hcw,
        List.append_nil]
      constructor
      · intro hmem
        rcases List.mem_append.mp hmem with hn | hc
        · exact absurd hn (castle_not_mem_normal gs.board _ (by decide))
        · exact hcb.2.mp hc
      · intro hcond
        exact List.mem_append.mpr (Or.inr (hcb.2.mpr hcond))

/-- Witness: in `c1GS` (white king e1, rook h1, right K held, path clear
and unattacked) the king-side castle is emitted, as the iff demands. -/
theorem castling_candidates_witness :
    (⟨7, 4, 7, 6, none⟩ : Move) ∈ pseudo_moves c1GS :=
  (((castling_candidates c1GS).1 (by decide) (by decide)).1).mpr (by decide)

/-! ### C10: `negamax` depends only on board, side to move, castling
rights, and en-passant target

`negamax` is a pure function, so determinism on equal inputs is immediate;
the substantive statement is that the clocks and the history stack are
irrelevant: two states agreeing on the four listed fields search
identically. -/

theorem make_move_board_congr (gs1 gs2 : GameState) (m : Move)
    (hb : gs1.board = gs2.board) (hep : gs1.en_passant = gs2.en_passant) :
    (make_move gs1 m).board = (make_move gs2 m).board := by
  show apply_board gs1.board gs1.en_passant m = apply_board gs2.board gs2.en_passant m
  rw [hb, hep]

theorem make_move_core_congr (gs1 gs2 : GameState) (m : Move)
    (hb : gs1.board = gs2.board) (htm : gs1.to_move = gs2.to_move)
    (hc : gs1.castling = gs2.castling) (hep : gs1.en_passant = gs2.en_passant) :
    (make_move gs1 m).board = (make_move gs2 m).board ∧
    (make_move gs1 m).to_move = (make_move gs2 m).to_move ∧
    (make_move gs1 m).castling = (make_move gs2 m).castling ∧
    (make_move gs1 m).en_passant = (make_move gs2 m).en_passant := by
  refine ⟨make_move_board_congr gs1 gs2 m hb hep, ?_, ?_, ?_⟩
  · show enemy gs1.to_move = enemy gs2.to_move
    rw [htm]
  · show update_castling gs1.castling (apply_board gs1.board gs1.en_passant m)
        (getc gs1.board m.fr m.fc) m = _
    rw [hb, hep, hc]
    rfl
  · show new_en_passant (getc gs1.board m.fr m.fc) m = _
    rw [hb]
    rfl

theorem in_check_congr (gs1 gs2 : GameState) (side : Char)
    (hb : gs1.board = gs2.board) : in_check gs1 side = in_check gs2 side := by
  unfold in_check
  rw [hb]

theorem king_moves_congr (gs1 gs2 : GameState) (r c : Int)
    (hb : gs1.board = gs2.board) (hc : gs1.castling = gs2.castling) :
    king_moves gs1 r c = king_moves gs2 r c := by
  unfold king_moves king_normal_moves king_castle_w king_castle_b
  rw [hb, hc]

theorem square_moves_congr (gs1 gs2 : GameState) (r c : Int)
    (hb : gs1.board = gs2.board) (htm : gs1.to_move = gs2.to_move)
    (hc : gs1.castling = gs2.castling) (hep : gs1.en_passant = gs2.en_passant) :
    square_moves gs1 r c = square_moves gs2 r c := by
  unfold square_moves
  rw [hb, htm, hep, king_moves_congr gs1 gs2 r c hb hc]

theorem pseudo_moves_congr (gs1 gs2 : GameState)
    (hb : gs1.board = gs2.board) (htm : gs1.to_move = gs2.to_move)
    (hc : gs1.castling = gs2.castling) (hep : gs1.en_passant = gs2.en_passant) :
    pseudo_moves gs1 = pseudo_moves gs2 := by
  unfold pseudo_moves
  congr 1
  funext rc
  exact square_moves_congr gs1 gs2 rc.1 rc.2 hb htm hc hep

theorem generate_moves_congr (gs1 gs2 : GameState)
    (hb : gs1.board = gs2.board) (htm : gs1.to_move = gs2.to_move)
    (hc : gs1.castling = gs2.castling) (hep : gs1.en_passant = gs2.en_passant) :
    generate_moves gs1 = generate_moves gs2 := by
  unfold generate_moves
  rw [pseudo_moves_congr gs1 gs2 hb htm hc hep]
  apply List.filter_congr
  intro m _
  rw [htm, in_check_congr (make_move gs1 m) (make_move gs2 m) gs2.to_move
    (make_move_board_congr gs1 gs2 m hb hep)]

theorem material_score_congr (gs1 gs2 : GameState) (hb : gs1.board = gs2.board) :
    material_score gs1 = material_score gs2 := by
  unfold material_score
  rw [hb]

theorem evaluate_congr (gs1 gs2 : GameState)
    (hb : gs1.board = gs2.board) (htm : gs1.to_move = gs2.to_move)
    (hc : gs1.castling = gs2.castling) (hep : gs1.en_passant = gs2.en_passant) :
    evaluate gs1 = evaluate gs2 := by
  unfold evaluate
  rw [material_score_congr gs1 gs2 hb, generate_moves_congr gs1 gs2 hb htm hc hep,
    generate_moves_congr { gs1 with to_move := enemy gs1.to_move }
      { gs2 with to_move := enemy gs2.to_move } hb (by simp [htm]) hc hep]

theorem sortMoves_congr (gs1 gs2 : GameState) (hb : gs1.board = gs2.board) :
    ∀ l : List Move, sortMoves gs1 l = sortMoves gs2 l := by
  have hkey : mv_key gs1 = mv_key gs2 := by
    funext m
    unfold mv_key
    rw [hb]
  intro l
  induction l with
  | nil => rfl
  | cons x xs ih =>
    unfold sortMoves
    rw [hkey, ih]

theorem negamaxLoop_congr (f1 f2 : GameState → Int → Int → Int × Option Move)
    (gs1 gs2 : GameState)
    (hf : ∀ m a bt, f1 (make_move gs1 m) a bt = f2 (make_move gs2 m) a bt) :
    ∀ (ms : List Move) (best : Int) (bm : Option Move) (alpha beta : Int),
      negamaxLoop f1 gs1 ms best bm alpha beta = negamaxLoop f2 gs2 ms best bm alpha beta := by
  intro ms
  induction ms with
  | nil => intro best bm alpha beta; rfl
  | cons m rest ih =>
    intro best bm alpha beta
    simp only [negamaxLoop]
    rw [hf m (-beta) (-alpha)]
    exact if_congr Iff.rfl rfl (ih _ _ _ _)

/-- C10: `negamax` reads only the board, the side to move, the castling
rights, and the en-passant target of a `GameState`: two states agreeing on
those four fields (their clocks and history stacks may differ) produce the
same score and the same chosen move at every depth and window.  Since
`negamax` is a pure function of these inputs — the capture-first ordering
included — this is the determinism stated by the claim. -/
theorem negamax_core_congr :
    ∀ (d : Nat) (gs1 gs2 : GameState) (alpha beta : Int),
      gs1.board = gs2.board → gs1.to_move = gs2.to_move →
      gs1.castling = gs2.castling → gs1.en_passant = gs2.en_passant →
      negamax d gs1 alpha beta = negamax d gs2 alpha beta := by
  intro d
  induction d with
  | zero =>
    intro gs1 gs2 alpha beta hb htm hc hep
    show (evaluate gs1, none) = (evaluate gs2, none)
    rw [evaluate_congr gs1 gs2 hb htm hc hep]
  | succ k ih =>
    intro gs1 gs2 alpha beta hb htm hc hep
    simp only [negamax]
    rw [generate_moves_congr gs1 gs2 hb htm hc hep,
      in_check_congr gs1 gs2 gs1.to_move hb, htm,
      sortMoves_congr gs1 gs2 hb]
    refine if_congr Iff.rfl rfl ?_
    apply negamaxLoop_congr
    intro m a bt
    obtain ⟨hb', htm', hc', hep'⟩ := make_move_core_congr gs1 gs2 m hb htm hc hep
    exact ih (make_move gs1 m) (make_move gs2 m) a bt hb' htm' hc' hep'

/-- A copy of `c1GS` with different clocks and a nonempty history stack. -/
def c10GS : GameState :=
  ⟨c1GS.board, c1GS.to_move, c1GS.castling, c1GS.en_passant, 42, 7,
   [⟨0, 0, 0, 0, 'x', 'y', ⟨true, true, true, true⟩, some ("e3"), 5, 6⟩]⟩

/-- Witness: the two states differ in clocks and history but search
identically. -/
theorem negamax_core_congr_witness :
    negamax 1 c1GS (-(10 ^ 9)) (10 ^ 9) = negamax 1 c10GS (-(10 ^ 9)) (10 ^ 9) :=
  negamax_core_congr 1 c1GS c10GS (-(10 ^ 9)) (10 ^ 9) rfl rfl rfl rfl

/-! ### C7: alpha-beta pruning does not change the full-window result

The development follows the classical fail-soft alpha-beta correctness
argument: `negamaxFull` (the cutoff-free search) is window-independent and
its loop computes a running maximum; the pruned search satisfies the
fail-soft bounds relative to it; with the `±10^9` full window and the value
bounds below, the root loop of the two searches runs in lockstep. -/

/-- Without the cutoff, the window arguments only flow into the recursive
calls, so the exhaustive search ignores them. -/
theorem negamaxFullLoop_indep (f : GameState → Int → Int → Int × Option Move)
    (hf : ∀ g x y x' y', f g x y = f g x' y') (gs : GameState) :
    ∀ (ms : List Move) (best : Int) (bm : Option Move) (alpha beta alpha' beta' : Int),
      negamaxFullLoop f gs ms best bm alpha beta =
        negamaxFullLoop f gs ms best bm alpha' beta' := by
  intro ms
  induction ms with
  | nil => intro best bm alpha beta alpha' beta'; rfl
  | cons m rest ih =>
    intro best bm alpha beta alpha' beta'
    simp only [negamaxFullLoop]
    rw [hf (make_move gs m) (-beta) (-alpha) (-beta') (-alpha')]
    exact ih _ _ _ _ _ _

theorem negamaxFull_indep :
    ∀ (d : Nat) (gs : GameState) (a b a' b' : Int),
      negamaxFull d gs a b = negamaxFull d gs a' b' := by
  intro d
  induction d with
  | zero => intro gs a b a' b'; rfl
  | succ k ih =>
    intro gs a b a' b'
    simp only [negamaxFull]
    refine if_congr Iff.rfl rfl ?_
    exact negamaxFullLoop_indep (fun g x y => negamaxFull k g x y)
      (fun g x y x' y' => ih g x y x' y') gs _ _ _ _ _ _ _

/-- The exhaustive value of a position (full window; by independence any
window gives the same). -/
def trueval (d : Nat) (gs : GameState) : Int :=
  (negamaxFull d gs (-(10 ^ 9)) (10 ^ 9)).1

theorem if_gt_eq_max (x y : Int) : (if x > y then x else y) = max y x := by
  rcases le_or_lt x y with h | h
  · rw [if_neg (by omega), max_eq_left h]
  · rw [if_pos h, max_eq_right (le_of_lt h)]

/-- The cutoff-free loop computes a running maximum of the negated child
values. -/
theorem negamaxFullLoop_val (k : Nat) (gs : GameState) :
    ∀ (ms : List Move) (best : Int) (bm : Option Move) (alpha beta : Int),
      (negamaxFullLoop (fun g x y => negamaxFull k g x y) gs ms best bm alpha beta).1 =
      List.foldl (fun acc m => max acc (-(trueval k (make_move gs m)))) best ms := by
  intro ms
  induction ms with
  | nil => intro best bm alpha beta; rfl
  | cons m rest ih =>
    intro best bm alpha beta
    simp only [negamaxFullLoop, List.foldl_cons]
    rw [show (negamaxFull k (make_move gs m) (-beta) (-alpha)).1 =
        trueval k (make_move gs m) from
      congrArg Prod.fst (negamaxFull_indep k (make_move gs m) _ _ _ _)]
    rw [if_gt_eq_max, ih]

/-- Terminal value of the exhaustive search (same formula as `negamax`). -/
theorem negamaxFull_terminal (gs : GameState) (k : Nat) (alpha beta : Int)
    (h : generate_moves gs = []) :
    negamaxFull (k + 1) gs alpha beta =
      (if in_check gs gs.to_move then -999999 + (10 - ((k : Int) + 1)) else 0, none) := by
  cases hc : in_check gs gs.to_move <;> simp [negamaxFull, h, hc]

theorem foldl_max_ge (g : Move → Int) :
    ∀ (ms : List Move) (x : Int),
      x ≤ List.foldl (fun acc m => max acc (g m)) x ms := by
  intro ms
  induction ms with
  | nil => intro x; exact le_refl x
  | cons m rest ih =>
    intro x
    calc x ≤ max x (g m) := le_max_left x (g m)
    _ ≤ List.foldl (fun acc m => max acc (g m)) (max x (g m)) rest := ih _

theorem foldl_max_comm (g : Move → Int) :
    ∀ (ms : List Move) (x y : Int),
      List.foldl (fun acc m => max acc (g m)) (max x y) ms =
        max (List.foldl (fun acc m => max acc (g m)) x ms) y := by
  intro ms
  induction ms with
  | nil => intro x y; rfl
  | cons m rest ih =>
    intro x y
    simp only [List.foldl_cons]
    rw [show max (max x y) (g m) = max (max x (g m)) y by omega, ih]

/-! Value bounds: every score the search can produce lies strictly inside
the `±10^9` sentinel window (up to depth 999000000, beyond which the
depth-biased mate scores would reach the window). -/

theorem PIECE_VALUES_bounds (c : Char) : 0 ≤ PIECE_VALUES c ∧ PIECE_VALUES c ≤ 900 := by
  unfold PIECE_VALUES
  split_ifs <;> omega

theorem material_step_bound (b : Board) (s : Int) (rc : Int × Int) :
    |material_step b s rc| ≤ |s| + 900 := by
  have hpv := PIECE_VALUES_bounds (getc b rc.1 rc.2).toUpper
  have hs2 := le_abs_self s
  have hs3 := neg_abs_le s
  unfold material_step
  dsimp only
  split_ifs <;> (rw [abs_le]; omega)

theorem material_foldl_bound (b : Board) :
    ∀ (l : List (Int × Int)) (s : Int),
      |List.foldl (material_step b) s l| ≤ |s| + 900 * l.length := by
  intro l
  induction l with
  | nil => intro s; simp
  | cons rc rest ih =>
    intro s
    simp only [List.foldl_cons, List.length_cons]
    have hstep := material_step_bound b s rc
    have h2 := ih (material_step b s rc)
    push_cast
    push_cast at h2
    omega

theorem material_score_bound (gs : GameState) : |material_score gs| ≤ 57600 := by
  have h := material_foldl_bound gs.board allRC 0
  have hlen : allRC.length = 64 := by decide
  rw [hlen] at h
  unfold material_score
  simpa using h

theorem length_flatMap_le {α : Type} (l : List α) (f : α → List Move) (k : Nat)
    (h : ∀ x, (f x).length ≤ k) : (l.flatMap f).length ≤ k * l.length := by
  induction l with
  | nil => simp
  | cons x rest ih =>
    simp only [List.flatMap_cons, List.length_append, List.length_cons]
    have := h x
    calc (f x).length + (rest.flatMap f).length ≤ k + k * rest.length := by omega
      _ = k * (rest.length + 1) := by ring

theorem ray_moves_length (b : Board) (side : Char) (r0 c0 : Int) :
    ∀ (fuel : Nat) (r c dr dc : Int),
      (ray_moves b side r0 c0 fuel r c dr dc).length ≤ fuel := by
  intro fuel
  induction fuel with
  | zero => intro r c dr dc; simp [ray_moves]
  | succ n ih =>
    intro r c dr dc
    unfold ray_moves
    split_ifs
    · simp only [List.length_cons]
      have := ih (r + dr) (c + dc) dr dc
      omega
    · simp
    · simp
    · simp

theorem sliding_moves_length (b : Board) (r c : Int) (dirs : List (Int × Int)) :
    (sliding_moves b r c dirs).length ≤ 8 * dirs.length := by
  unfold sliding_moves
  exact length_flatMap_le _ _ 8 (fun d => ray_moves_length _ _ _ _ 8 _ _ _ _)

theorem knight_moves_length (b : Board) (r c : Int) :
    (knight_moves b r c).length ≤ 8 := by
  unfold knight_moves
  refine le_trans (length_flatMap_le _ _ 1 ?_) (by simp)
  intro d
  dsimp only
  split_ifs <;> simp

theorem pawn_moves_length (b : Board) (ep : Option String) (r c : Int) :
    (pawn_moves b ep r c).length ≤ 13 := by
  unfold pawn_moves
  rcases ep with - | s <;>
  · dsimp only
    simp only [List.flatMap_cons, List.flatMap_nil, List.append_nil, List.length_append]
    split_ifs <;> simp [promos]

theorem king_moves_length (gs : GameState) (r c : Int) :
    (king_moves gs r c).length ≤ 12 := by
  unfold king_moves
  have h1 : (king_normal_moves gs.board r c).length ≤ 8 := by
    unfold king_normal_moves
    refine le_trans (length_flatMap_le _ _ 1 ?_) (by simp)
    intro d
    dsimp only
    split_ifs <;> simp
  have h2 : (king_castle_w gs r c).length ≤ 2 := by
    unfold king_castle_w
    dsimp only
    split_ifs <;> simp
  have h3 : (king_castle_b gs r c).length ≤ 2 := by
    unfold king_castle_b
    dsimp only
    split_ifs <;> simp
  simp only [List.length_append]
  omega

theorem square_moves_length (gs : GameState) (r c : Int) :
    (square_moves gs r c).length ≤ 64 := by
  unfold square_moves
  dsimp only
  split_ifs
  · simp
  · simp
  · exact le_trans (pawn_moves_length _ _ _ _) (by norm_num)
  · exact le_trans (knight_moves_length _ _ _) (by norm_num)
  · exact le_trans (sliding_moves_length _ _ _ _) (by norm_num)
  · exact le_trans (sliding_moves_length _ _ _ _) (by norm_num)
  · exact le_trans (sliding_moves_length _ _ _ _) (by norm_num)
  · exact le_trans (king_moves_length _ _ _) (by norm_num)
  · simp

theorem generate_moves_length (gs : GameState) :
    (generate_moves gs).length ≤ 4096 := by
  unfold generate_moves
  refine le_trans (List.length_filter_le _ _) ?_
  unfold pseudo_moves
  refine le_trans (length_flatMap_le _ _ 64 (fun rc => square_moves_length gs rc.1 rc.2)) ?_
  have hlen : allRC.length = 64 := by decide
  rw [hlen]

/-- The evaluator's value is tiny compared with the `±10^9` window. -/
theorem evaluate_bound (gs : GameState) : |evaluate gs| ≤ 98560 := by
  unfold evaluate
  dsimp only
  have h1 := material_score_bound gs
  have h2 := generate_moves_length gs
  have h3 := generate_moves_length { gs with to_move := enemy gs.to_move }
  have h2' : ((generate_moves gs).length : Int) ≤ 4096 := by exact_mod_cast h2
  have h3' : ((generate_moves { gs with to_move := enemy gs.to_move }).length : Int) ≤ 4096 := by
    exact_mod_cast h3
  have h4 : (0 : Int) ≤ ((generate_moves gs).length : Int) := by positivity
  have h5 : (0 : Int) ≤
      ((generate_moves { gs with to_move := enemy gs.to_move }).length : Int) := by positivity
  rw [abs_le] at h1 ⊢
  omega

theorem length_insertDesc (key : Move → Int) (m : Move) :
    ∀ l : List Move, (insertDesc key m l).length = l.length + 1 := by
  intro l
  induction l with
  | nil => rfl
  | cons x xs ih =>
    unfold insertDesc
    split_ifs <;> simp [ih]

theorem length_sortMoves (gs : GameState) :
    ∀ l : List Move, (sortMoves gs l).length = l.length := by
  intro l
  induction l with
  | nil => rfl
  | cons x xs ih =>
    unfold sortMoves
    rw [length_insertDesc, ih, List.length_cons]

theorem negamaxLoop_cons (f : GameState → Int → Int → Int × Option Move)
    (gs : GameState) (m : Move) (rest : List Move) (best : Int) (bm : Option Move)
    (alpha beta : Int) :
    negamaxLoop f gs (m :: rest) best bm alpha beta =
      (if max alpha (-(f (make_move gs m) (-beta) (-alpha)).1) ≥ beta then
        ((if -(f (make_move gs m) (-beta) (-alpha)).1 > best then
            -(f (make_move gs m) (-beta) (-alpha)).1 else best),
         (if -(f (make_move gs m) (-beta) (-alpha)).1 > best then some m else bm))
      else negamaxLoop f gs rest
        (if -(f (make_move gs m) (-beta) (-alpha)).1 > best then
          -(f (make_move gs m) (-beta) (-alpha)).1 else best)
        (if -(f (make_move gs m) (-beta) (-alpha)).1 > best then some m else bm)
        (max alpha (-(f (make_move gs m) (-beta) (-alpha)).1)) beta) := rfl

theorem negamaxLoop_bounds (f : GameState → Int → Int → Int × Option Move)
    (hf : ∀ g x y, -(10 ^ 9) < (f g x y).1 ∧ (f g x y).1 < 10 ^ 9) (gs : GameState) :
    ∀ (ms : List Move) (best : Int) (bm : Option Move) (alpha beta : Int),
      (-(10 ^ 9) < best ∨ ms ≠ []) → -(10 ^ 9) ≤ best → best < 10 ^ 9 →
      -(10 ^ 9) < (negamaxLoop f gs ms best bm alpha beta).1 ∧
        (negamaxLoop f gs ms best bm alpha beta).1 < 10 ^ 9 := by
  intro ms
  induction ms with
  | nil =>
    intro best bm alpha beta h1 h2 h3
    rcases h1 with h1 | h1
    · exact ⟨h1, h3⟩
    · exact absurd rfl h1
  | cons m rest ih =>
    intro best bm alpha beta h1 h2 h3
    rw [negamaxLoop_cons]
    have hv := hf (make_move gs m) (-beta) (-alpha)
    by_cases hcut : max alpha (-(f (make_move gs m) (-beta) (-alpha)).1) ≥ beta
    · rw [if_pos hcut]
      dsimp only
      constructor <;> (split_ifs <;> omega)
    · rw [if_neg hcut]
      apply ih
      · left
        split_ifs <;> omega
      · split_ifs <;> omega
      · split_ifs <;> omega

/-- Up to depth 999000000 every score returned by the pruned search lies
strictly inside the fixed `±10^9` window. -/
theorem negamax_bounds :
    ∀ (d : Nat), d ≤ 999000000 → ∀ (gs : GameState) (a b : Int),
      -(10 ^ 9) < (negamax d gs a b).1 ∧ (negamax d gs a b).1 < 10 ^ 9 := by
  intro d
  induction d with
  | zero =>
    intro hd gs a b
    have h := evaluate_bound gs
    rw [abs_le] at h
    show -(10 ^ 9) < evaluate gs ∧ evaluate gs < 10 ^ 9
    constructor <;> omega
  | succ k ih =>
    intro hd gs a b
    by_cases hm : generate_moves gs = []
    · rw [negamax_terminal gs k a b hm]
      have hk : (k : Int) ≤ 999000000 := by exact_mod_cast Nat.le_of_succ_le hd
      split_ifs <;> constructor <;> simp <;> omega
    · have hms : sortMoves gs (generate_moves gs) ≠ [] := by
        intro hx
        have := length_sortMoves gs (generate_moves gs)
        rw [hx] at this
        exact hm (List.length_eq_zero.mp this.symm)
      have hloop := negamaxLoop_bounds (fun g x y => negamax k g x y)
        (fun g x y => ih (Nat.le_of_succ_le hd) g x y) gs
        (sortMoves gs (generate_moves gs)) (-(10 ^ 9)) none a b
        (Or.inr hms) (le_refl _) (by norm_num)
      simp only [negamax]
      rw [if_neg hm]
      exact hloop

/-! The fail-soft property: relative to the exhaustive value, the pruned
search is exact inside its window, an upper bound when it fails low, and a
lower bound when it fails high. -/

theorem trueval_succ (k : Nat) (gs : GameState) (hm : generate_moves gs ≠ []) :
    trueval (k + 1) gs =
      List.foldl (fun acc m => max acc (-(trueval k (make_move gs m)))) (-(10 ^ 9))
        (sortMoves gs (generate_moves gs)) := by
  unfold trueval
  simp only [negamaxFull]
  rw [if_neg hm]
  exact negamaxFullLoop_val k gs _ _ _ _ _

theorem negamaxLoop_failsoft (k : Nat) (gs : GameState) (a b : Int)
    (ha : -(10 ^ 9) ≤ a) (hb : b ≤ 10 ^ 9)
    (ih : ∀ (g : GameState) (x y : Int), -(10 ^ 9) ≤ x → x < y → y ≤ 10 ^ 9 →
      (((negamax k g x y).1 ≤ x → trueval k g ≤ (negamax k g x y).1) ∧
       (x < (negamax k g x y).1 → (negamax k g x y).1 < y →
         (negamax k g x y).1 = trueval k g) ∧
       (y ≤ (negamax k g x y).1 → (negamax k g x y).1 ≤ trueval k g))) :
    ∀ (ms : List Move) (best : Int) (bm : Option Move) (alpha : Int),
      alpha = max a best → alpha < b →
      (((negamaxLoop (fun g a bt => negamax k g a bt) gs ms best bm alpha b).1 ≤ a →
         List.foldl (fun acc m => max acc (-(trueval k (make_move gs m)))) best ms ≤
           (negamaxLoop (fun g a bt => negamax k g a bt) gs ms best bm alpha b).1) ∧
       (a < (negamaxLoop (fun g a bt => negamax k g a bt) gs ms best bm alpha b).1 →
         (negamaxLoop (fun g a bt => negamax k g a bt) gs ms best bm alpha b).1 < b →
         (negamaxLoop (fun g a bt => negamax k g a bt) gs ms best bm alpha b).1 =
           List.foldl (fun acc m => max acc (-(trueval k (make_move gs m)))) best ms) ∧
       (b ≤ (negamaxLoop (fun g a bt => negamax k g a bt) gs ms best bm alpha b).1 →
         (negamaxLoop (fun g a bt => negamax k g a bt) gs ms best bm alpha b).1 ≤
           List.foldl (fun acc m => max acc (-(trueval k (make_move gs m)))) best ms)) := by
  intro ms
  induction ms with
  | nil =>
    intro best bm alpha hα hαb
    exact ⟨fun _ => le_refl _, fun _ _ => rfl, fun _ => le_refl _⟩
  | cons m rest ihl =>
    intro best bm alpha hα hαb
    rw [negamaxLoop_cons]
    set w := (negamax k (make_move gs m) (-b) (-alpha)).1 with hw
    have ihc := ih (make_move gs m) (-b) (-alpha) (by omega) (by omega) (by omega)
    rw [← hw] at ihc
    simp only [List.foldl_cons]
    by_cases hcut : max alpha (-w) ≥ b
    · rw [if_pos hcut]
      have h1 : -w > best := by omega
      rw [if_pos h1]
      dsimp only
      have hTw : trueval k (make_move gs m) ≤ w := ihc.1 (by omega)
      have hge := foldl_max_ge (fun m => -(trueval k (make_move gs m))) rest
        (max best (-(trueval k (make_move gs m))))
      refine ⟨fun h => absurd h (by omega), fun h1' h2' => absurd h2' (by omega),
        fun _ => ?_⟩
      omega
    · rw [if_neg hcut]
      rw [show (if -w > best then -w else best) = max best (-w) from if_gt_eq_max _ _]
      obtain ⟨ih1, ih2, ih3⟩ := ihl (max best (-w))
        (if -w > best then some m else bm) (max alpha (-w)) (by omega) (by omega)
      by_cases hw1 : w ≤ -b
      · exfalso; omega
      · by_cases hw2 : -alpha ≤ w
        · have hTcw : w ≤ trueval k (make_move gs m) := ihc.2.2 hw2
          have hR := foldl_max_ge (fun m => -(trueval k (make_move gs m))) rest best
          have hTid := foldl_max_comm (fun m => -(trueval k (make_move gs m))) rest best
            (-(trueval k (make_move gs m)))
          have hTid2 := foldl_max_comm (fun m => -(trueval k (make_move gs m))) rest best (-w)
          refine ⟨fun h => ?_, fun h1' h2' => ?_, fun h => ?_⟩
          · have hx := ih1 h
            omega
          · have hx := ih2 h1' h2'
            omega
          · have hx := ih3 h
            omega
        · have hwt : w = trueval k (make_move gs m) := ihc.2.1 (by omega) (by omega)
          rw [hwt] at ih1 ih2 ih3 ⊢
          exact ⟨ih1, ih2, ih3⟩

theorem negamax_failsoft :
    ∀ (d : Nat) (gs : GameState) (a b : Int),
      -(10 ^ 9) ≤ a → a < b → b ≤ 10 ^ 9 →
      (((negamax d gs a b).1 ≤ a → trueval d gs ≤ (negamax d gs a b).1) ∧
       (a < (negamax d gs a b).1 → (negamax d gs a b).1 < b →
         (negamax d gs a b).1 = trueval d gs) ∧
       (b ≤ (negamax d gs a b).1 → (negamax d gs a b).1 ≤ trueval d gs)) := by
  intro d
  induction d with
  | zero =>
    intro gs a b h1 h2 h3
    have hv : (negamax 0 gs a b).1 = evaluate gs := rfl
    have ht : trueval 0 gs = evaluate gs := rfl
    rw [hv, ht]
    exact ⟨fun _ => le_refl _, fun _ _ => rfl, fun _ => le_refl _⟩
  | succ k ih =>
    intro gs a b h1 h2 h3
    by_cases hm : generate_moves gs = []
    · have hv1 : (negamax (k + 1) gs a b).1 =
          (if in_check gs gs.to_move then -999999 + (10 - ((k : Int) + 1)) else 0) := by
        rw [negamax_terminal gs k a b hm]
      have ht : trueval (k + 1) gs =
          (if in_check gs gs.to_move then -999999 + (10 - ((k : Int) + 1)) else 0) := by
        unfold trueval
        rw [negamaxFull_terminal gs k _ _ hm]
      rw [hv1, ht]
      exact ⟨fun _ => le_refl _, fun _ _ => rfl, fun _ => le_refl _⟩
    · have hv1 : negamax (k + 1) gs a b =
          negamaxLoop (fun g a bt => negamax k g a bt) gs
            (sortMoves gs (generate_moves gs)) (-(10 ^ 9)) none a b := by
        simp only [negamax]
        rw [if_neg hm]
      have ht := trueval_succ k gs hm
      rw [hv1, ht]
      exact negamaxLoop_failsoft k gs a b h1 h3 ih
        (sortMoves gs (generate_moves gs)) (-(10 ^ 9)) none a (by omega) h2

theorem negamaxFullLoop_cons (f : GameState → Int → Int → Int × Option Move)
    (gs : GameState) (m : Move) (rest : List Move) (best : Int) (bm : Option Move)
    (alpha beta : Int) :
    negamaxFullLoop f gs (m :: rest) best bm alpha beta =
      negamaxFullLoop f gs rest
        (if -(f (make_move gs m) (-beta) (-alpha)).1 > best then
          -(f (make_move gs m) (-beta) (-alpha)).1 else best)
        (if -(f (make_move gs m) (-beta) (-alpha)).1 > best then some m else bm)
        (max alpha (-(f (make_move gs m) (-beta) (-alpha)).1)) beta := rfl

/-- At the root's full window the pruned and the exhaustive loop run in
lockstep: the cutoff can never fire (all values are inside `±10^9`) and the
fail-soft bounds make both loops perform identical updates. -/
theorem negamaxRootLoop_eq (k : Nat) (hk : k ≤ 999000000) (gs : GameState) :
    ∀ (ms : List Move) (best : Int) (bm : Option Move),
      -(10 ^ 9) ≤ best → best < 10 ^ 9 →
      negamaxLoop (fun g a bt => negamax k g a bt) gs ms best bm best (10 ^ 9) =
        negamaxFullLoop (fun g a bt => negamaxFull k g a bt) gs ms best bm best (10 ^ 9) := by
  intro ms
  induction ms with
  | nil => intro best bm h1 h2; rfl
  | cons m rest ih =>
    intro best bm h1 h2
    rw [negamaxLoop_cons, negamaxFullLoop_cons]
    set w := (negamax k (make_move gs m) (-(10 ^ 9)) (-best)).1 with hw
    have hTc : (negamaxFull k (make_move gs m) (-(10 ^ 9)) (-best)).1 =
        trueval k (make_move gs m) :=
      congrArg Prod.fst (negamaxFull_indep k (make_move gs m) _ _ _ _)
    rw [hTc]
    have hbw := negamax_bounds k hk (make_move gs m) (-(10 ^ 9)) (-best)
    rw [← hw] at hbw
    have ihc := negamax_failsoft k (make_move gs m) (-(10 ^ 9)) (-best)
      (by omega) (by omega) (by omega)
    rw [← hw] at ihc
    rw [if_neg (show ¬(max best (-w) ≥ 10 ^ 9) by omega)]
    by_cases hgt : -w > best
    · have hwt : w = trueval k (make_move gs m) := ihc.2.1 (by omega) (by omega)
      rw [← hwt]
      simp only [if_pos hgt]
      rw [show max best (-w) = -w by omega]
      exact ih (-w) (some m) (by omega) (by omega)
    · have hTcb : -(trueval k (make_move gs m)) ≤ best := by
        have := ihc.2.2 (by omega)
        omega
      rw [if_neg hgt, if_neg hgt,
        if_neg (show ¬(-(trueval k (make_move gs m)) > best) by omega),
        if_neg (show ¬(-(trueval k (make_move gs m)) > best) by omega),
        show max best (-w) = best by omega,
        show max best (-(trueval k (make_move gs m))) = best by omega]
      exact ih best bm h1 h2

/-- C7: at the full `±10^9` window (and any depth up to 999000000, beyond
which the depth-biased mate scores would escape the window) the alpha-beta
pruned `negamax` returns exactly the same score and the same chosen move as
the exhaustive `negamaxFull`, which is `negamax` over the same ordered
candidate list with the `alpha >= beta` cutoff removed. -/
theorem alpha_beta_pruning_lossless (gs : GameState) (d : Nat)
    (hd : d ≤ 999000000) :
    negamax d gs (-(10 ^ 9)) (10 ^ 9) = negamaxFull d gs (-(10 ^ 9)) (10 ^ 9) := by
  cases d with
  | zero => rfl
  | succ k =>
    by_cases hm : generate_moves gs = []
    · rw [negamax_terminal gs k _ _ hm, negamaxFull_terminal gs k _ _ hm]
    · simp only [negamax, negamaxFull]
      rw [if_neg hm, if_neg hm]
      exact negamaxRootLoop_eq k (Nat.le_of_succ_le hd) gs
        (sortMoves gs (generate_moves gs)) (-(10 ^ 9)) none (le_refl _) (by norm_num)

/-- Witness: the pruned and the exhaustive search agree on `c1GS` at
depth 1. -/
theorem alpha_beta_pruning_lossless_witness :
    negamax 1 c1GS (-(10 ^ 9)) (10 ^ 9) = negamaxFull 1 c1GS (-(10 ^ 9)) (10 ^ 9) :=
  alpha_beta_pruning_lossless c1GS 1 (by norm_num)

end ConsoleChess
